import Mathlib

/-!
# Sequential Minimal Optimization solver (`fastlib/u/garryb/svm/smo.h`)

A shallow embedding of the class template `SMO<TKernel>` and theorems about it.

Conventions of the embedding

* A C++ `double` is an exact rational number (`ℚ`): the development is about the
  control flow and the algebra of the solver, not about rounding.
* `Vector` is a `List ℚ`; reading index `i` is `getD i 0`, writing is `List.set`.
* `Matrix` is a list of columns, one column per example; the last row of the
  matrix holds the 0/1 class label of the example.
* The kernel (template parameter `TKernel`) is a function on two vectors.
* The ambient `rand()` is a stream `rnd : ℕ → ℕ` together with the number of
  values already drawn.
* A `for` loop over `0 .. length` is a fold over `List.range length`; a
  `do ... while` loop is a recursion with explicit fuel that returns `none` when
  the fuel runs out.
-/

namespace Smo

/-! ## Constants (smo.h, lines 7-9) -/

/-- Snap distance `SMO_ZERO = 1.0e-8`. -/
def SMO_ZERO : ℚ := 1 / 100000000

/-- Progress and objective-tie epsilon `SMO_EPS = 1.0e-4`. -/
def SMO_EPS : ℚ := 1 / 10000

/-- Violation tolerance `SMO_TOLERANCE = 1.0e-4`. -/
def SMO_TOLERANCE : ℚ := 1 / 10000

/-! ## Collaborators that are not part of `smo.h` -/

/-- Modelled from the spec: `math::ClampNonNegative` of the fastlib math header,
which is not among the sources; the spec reads the lower bound as `max(0, r)`. -/
def ClampNonNegative (d : ℚ) : ℚ := max 0 d

/-- Modelled from the spec: `math::ClampNonPositive` of the fastlib math header,
which is not among the sources; the spec reads the upper bound as `C + min(0, r)`. -/
def ClampNonPositive (d : ℚ) : ℚ := min 0 d

/-- Modelled from the spec: `math::ClampRange` of the fastlib math header, which
is not among the sources; the spec says the value is clipped into `[L, U]`. -/
def ClampRange (value range_min range_max : ℚ) : ℚ :=
  if value ≤ range_min then range_min
  else if value ≥ range_max then range_max
  else value

/-- The fastlib `Matrix`, column major: `cols` lists the columns, each of
`n_rows` entries. -/
structure Matrix where
  n_rows : ℕ
  cols : List (List ℚ)

/-- Number of columns of the matrix (`n_cols()`). -/
def Matrix.n_cols (m : Matrix) : ℕ := m.cols.length

/-- Entry at row `r` of column `c` (`get(r, c)`). -/
def Matrix.get (m : Matrix) (r c : ℕ) : ℚ := (m.cols.getD c []).getD r 0

/-- Entries `start .. start + len - 1` of column `c` (`MakeColumnSubvector`). -/
def Matrix.MakeColumnSubvector (m : Matrix) (c start len : ℕ) : List ℚ :=
  ((m.cols.getD c []).drop start).take len

/-- The fastlib `Dataset`, of which the solver only reads `matrix()`. -/
structure Dataset where
  matrix : Matrix

/-- The kernel capability `TKernel::Eval`. -/
abbrev Kernel := List ℚ → List ℚ → ℚ

/-! ## The solver state (smo.h, lines 19-25) -/

/-- The data members of `SMO<TKernel>`. -/
structure SMO where
  kernel_ : Kernel
  matrix_ : Matrix
  alpha_ : List ℚ
  error_ : List ℚ
  thresh_ : ℚ
  c_ : ℚ

/-- Source `SMO::Init` (lines 36-49): stores `c_in`, aliases the dataset matrix and
zeroes `alpha_`, `error_` and `thresh_`. The kernel is initialised separately,
so it is passed in. The function returns `void` and has no failing path. -/
def Init (kernel_ : Kernel) (dataset_in : Dataset) (c_in : ℚ) : SMO :=
  { kernel_ := kernel_
    matrix_ := dataset_in.matrix
    alpha_ := List.replicate dataset_in.matrix.n_cols 0
    error_ := List.replicate dataset_in.matrix.n_cols 0
    thresh_ := 0
    c_ := c_in }

/-- Source `SMO::FixAlpha_` (lines 74-81). -/
def FixAlpha_ (st : SMO) (alpha : ℚ) : ℚ :=
  if alpha < SMO_ZERO then 0
  else if alpha > st.c_ - SMO_ZERO then st.c_
  else alpha

/-- Source `SMO::IsBound_` (lines 83-85). -/
def IsBound_ (st : SMO) (alpha : ℚ) : Bool :=
  decide (alpha ≤ 0) || decide (alpha ≥ st.c_)

/-- Source `SMO::GetLabelSign_` (lines 87-89). -/
def GetLabelSign_ (st : SMO) (i : ℕ) : ℚ :=
  st.matrix_.get (st.matrix_.n_rows - 1) i * 2 - 1

/-- Source `SMO::GetVector_` (lines 91-93). -/
def GetVector_ (st : SMO) (i : ℕ) : List ℚ :=
  st.matrix_.MakeColumnSubvector i 0 (st.matrix_.n_rows - 1)

/-- Source `SMO::EvalKernel_` (lines 105-113). -/
def EvalKernel_ (st : SMO) (i j : ℕ) : ℚ :=
  st.kernel_ (GetVector_ st i) (GetVector_ st j)

/-- Source `SMO::Evaluate_` (lines 144-165). The label sign inside the sum is that of
the evaluated example `i`, as in the source. -/
def Evaluate_ (st : SMO) (i : ℕ) : ℚ :=
  let example_ := GetVector_ st i
  let summation := (List.range st.matrix_.n_cols).foldl
    (fun summation j =>
      if st.alpha_.getD j 0 ≠ 0 then
        summation + GetLabelSign_ st i * st.alpha_.getD j 0
          * st.kernel_ example_ (GetVector_ st j)
      else summation) 0
  summation - st.thresh_

/-- Source `SMO::Error_` (lines 95-101). -/
def Error_ (st : SMO) (i : ℕ) : ℚ :=
  if !IsBound_ st (st.alpha_.getD i 0) then st.error_.getD i 0
  else Evaluate_ st i - GetLabelSign_ st i

/-! ## Model extraction (smo.h, lines 116-142) -/

/-- The two output arguments of `GetSVM`. A slot is `none` while nothing has
been stored in it since `Init` allocated it. -/
structure SVMOut where
  support_vectors : List (Option (List ℚ))
  support_alpha : List (Option ℚ)

/-- Source `SMO::GetSVM` (lines 116-142). The first loop counts the non-zero alphas,
the outputs are allocated with that many slots, and the second loop stores into
slot `i_support`, which the source never advances. -/
def GetSVM (st : SMO) : SVMOut :=
  let n_support := (List.range st.alpha_.length).foldl
    (fun n_support i => if st.alpha_.getD i 0 ≠ 0 then n_support + 1 else n_support) 0
  let i_support := 0
  (List.range st.alpha_.length).foldl
    (fun out i =>
      if st.alpha_.getD i 0 ≠ 0 then
        { support_vectors := out.support_vectors.set i_support (some (GetVector_ st i))
          support_alpha :=
            out.support_alpha.set i_support (some (st.alpha_.getD i 0 * GetLabelSign_ st i)) }
      else out)
    { support_vectors := List.replicate n_support none
      support_alpha := List.replicate n_support none }

/-! ## The pairwise step (smo.h, lines 262-376) -/

/-- Value `r` of `TakeStep_` (lines 267-282). Both `yi` and `yj` are read from
index `i`, as in the source. -/
def TakeStep_r (st : SMO) (i j : ℕ) : ℚ :=
  let yi := GetLabelSign_ st i
  let yj := GetLabelSign_ st i
  let s := yi * yj
  if s < 0 then st.alpha_.getD j 0 - st.alpha_.getD i 0
  else st.alpha_.getD j 0 + st.alpha_.getD i 0 - st.c_

/-- Lower bound `l` of `TakeStep_` (line 284). -/
def TakeStep_l (st : SMO) (i j : ℕ) : ℚ := ClampNonNegative (TakeStep_r st i j)

/-- Upper bound `u` of `TakeStep_` (line 285). -/
def TakeStep_u (st : SMO) (i j : ℕ) : ℚ := st.c_ + ClampNonPositive (TakeStep_r st i j)

/-- Second derivative `eta` of `TakeStep_` (lines 293-297). -/
def TakeStep_eta (st : SMO) (i j : ℕ) : ℚ :=
  let kii := EvalKernel_ st i i
  let kij := EvalKernel_ st i j
  let kjj := EvalKernel_ st j j
  2 * kij - kii - kjj

/-- Boundary objective `objlower` of `TakeStep_` (lines 304-312). -/
def TakeStep_objlower (st : SMO) (i j : ℕ) : ℚ :=
  let yi := GetLabelSign_ st i
  let yj := GetLabelSign_ st i
  let s := yi * yj
  let error_i := Error_ st i
  let l := TakeStep_l st i j
  let kii := EvalKernel_ st i i
  let kij := EvalKernel_ st i j
  let kjj := EvalKernel_ st j j
  let fiold := error_i + yi
  let vi := fiold + st.thresh_ - yi * st.alpha_.getD i 0 * kii - yj * st.alpha_.getD j 0 * kij
  let fl := st.alpha_.getD i 0 + s * st.alpha_.getD j 0 - s * l
  fl + l - (1/2) * kii * fl * fl - (1/2) * kjj * l * l - s * kij * fl * l - yj * l * vi

/-- Boundary objective `objupper` of `TakeStep_` (lines 304-315). -/
def TakeStep_objupper (st : SMO) (i j : ℕ) (error_j : ℚ) : ℚ :=
  let yi := GetLabelSign_ st i
  let yj := GetLabelSign_ st i
  let s := yi * yj
  let u := TakeStep_u st i j
  let kii := EvalKernel_ st i i
  let kij := EvalKernel_ st i j
  let kjj := EvalKernel_ st j j
  let fjold := error_j + yj
  let vj := fjold + st.thresh_ - yi * st.alpha_.getD i 0 * kij - yj * st.alpha_.getD j 0 * kjj
  let fu := st.alpha_.getD i 0 + s * st.alpha_.getD j 0 - s * u
  fu + u - (1/2) * kii * fu * fu - (1/2) * kjj * u * u - s * kij * fu * u - yj * u * vj

/-- Value of `alpha_j` before snapping in `TakeStep_` (lines 300-324). -/
def TakeStep_alpha_j_raw (st : SMO) (i j : ℕ) (error_j : ℚ) : ℚ :=
  let yj := GetLabelSign_ st i
  let error_i := Error_ st i
  let l := TakeStep_l st i j
  let u := TakeStep_u st i j
  let eta := TakeStep_eta st i j
  if eta < 0 then
    ClampRange (st.alpha_.getD j 0 - yj * (error_i - error_j) / eta) l u
  else
    let objlower := TakeStep_objlower st i j
    let objupper := TakeStep_objupper st i j error_j
    if objlower > objupper + SMO_EPS then l
    else if objlower < objupper - SMO_EPS then u
    else st.alpha_.getD j 0

/-- New value of `alpha_j` after snapping in `TakeStep_` (line 326). -/
def TakeStep_alpha_j (st : SMO) (i j : ℕ) (error_j : ℚ) : ℚ :=
  FixAlpha_ st (TakeStep_alpha_j_raw st i j error_j)

/-- New value of `alpha_i` in `TakeStep_` (lines 328, 335). -/
def TakeStep_alpha_i (st : SMO) (i j : ℕ) (error_j : ℚ) : ℚ :=
  let yi := GetLabelSign_ st i
  let yj := GetLabelSign_ st i
  let s := yi * yj
  let d_alpha_j := TakeStep_alpha_j st i j error_j - st.alpha_.getD j 0
  FixAlpha_ st (st.alpha_.getD i 0 - s * d_alpha_j)

/-- Threshold candidate `thresh_i` of `TakeStep_` (line 339). -/
def TakeStep_thresh_i (st : SMO) (i j : ℕ) (error_j : ℚ) : ℚ :=
  let yi := GetLabelSign_ st i
  let yj := GetLabelSign_ st i
  let d_alpha_j := TakeStep_alpha_j st i j error_j - st.alpha_.getD j 0
  let d_alpha_i := TakeStep_alpha_i st i j error_j - st.alpha_.getD i 0
  st.thresh_ + Error_ st i + yi * d_alpha_i * EvalKernel_ st i i
    + yj * d_alpha_j * EvalKernel_ st i j

/-- Threshold candidate `thresh_j` of `TakeStep_` (line 340). -/
def TakeStep_thresh_j (st : SMO) (i j : ℕ) (error_j : ℚ) : ℚ :=
  let yi := GetLabelSign_ st i
  let yj := GetLabelSign_ st i
  let d_alpha_j := TakeStep_alpha_j st i j error_j - st.alpha_.getD j 0
  let d_alpha_i := TakeStep_alpha_i st i j error_j - st.alpha_.getD i 0
  st.thresh_ + error_j + yi * d_alpha_i * EvalKernel_ st i j
    + yj * d_alpha_j * EvalKernel_ st j j

/-- New threshold `thresh_new` of `TakeStep_` (lines 342-348). -/
def TakeStep_thresh_new (st : SMO) (i j : ℕ) (error_j : ℚ) : ℚ :=
  if !IsBound_ st (TakeStep_alpha_i st i j error_j) then TakeStep_thresh_i st i j error_j
  else if !IsBound_ st (TakeStep_alpha_j st i j error_j) then TakeStep_thresh_j st i j error_j
  else (TakeStep_thresh_i st i j error_j + TakeStep_thresh_j st i j error_j) / 2

/-- Error cache written by `TakeStep_` (lines 350-369): the two conditional
resets to zero, then the loop over every `k` other than `i`. -/
def TakeStep_error (st : SMO) (i j : ℕ) (error_j : ℚ) : List ℚ :=
  let yi := GetLabelSign_ st i
  let alpha_i := TakeStep_alpha_i st i j error_j
  let alpha_j := TakeStep_alpha_j st i j error_j
  let d_alpha_j := alpha_j - st.alpha_.getD j 0
  let d_alpha_i := alpha_i - st.alpha_.getD i 0
  let error1 := if !IsBound_ st alpha_i then st.error_.set i 0 else st.error_
  let error2 := if !IsBound_ st alpha_j then error1.set j 0 else error1
  let ti := yi * d_alpha_i
  let tj := yi * d_alpha_j
  let d_thresh := TakeStep_thresh_new st i j error_j - st.thresh_
  (List.range error2.length).foldl
    (fun err k =>
      if k ≠ i then
        err.set k (err.getD k 0 + (ti * EvalKernel_ st i k + tj * EvalKernel_ st j k - d_thresh))
      else err)
    error2

/-- Source `SMO::TakeStep_` (lines 262-376): the result pairs the returned
`bool` with the solver state on return. -/
def TakeStep_ (st : SMO) (i j : ℕ) (error_j : ℚ) : Bool × SMO :=
  if i = j then (false, st)
  else if TakeStep_l st i j = TakeStep_u st i j then (false, st)
  else
    let alpha_j := TakeStep_alpha_j st i j error_j
    let d_alpha_j := alpha_j - st.alpha_.getD j 0
    if |d_alpha_j| < SMO_EPS * (alpha_j + st.alpha_.getD j 0 + SMO_EPS) then (false, st)
    else
      let alpha_i := TakeStep_alpha_i st i j error_j
      (true,
        { st with
          error_ := TakeStep_error st i j error_j
          thresh_ := TakeStep_thresh_new st i j error_j
          alpha_ := (st.alpha_.set i alpha_i).set j alpha_j })

/-! ## Working-set selection (smo.h, lines 196-259) -/

/-- The predicate tested at lines 201-202 of `TryChange_`, with
`rj = Error_(j) * GetLabelSign_(j)`: example `j` violates optimality. -/
def KKTViolates (st : SMO) (j : ℕ) : Bool :=
  let rj := Error_ st j * GetLabelSign_ st j
  (decide (rj < -SMO_TOLERANCE) && decide (st.alpha_.getD j 0 < st.c_))
    || (decide (rj > SMO_TOLERANCE) && decide (st.alpha_.getD j 0 > 0))

/-- First greedy scan of `TryChange_` (lines 209-216), for `error_j > 0`: the
index of a non-bound example of least cached error below `error_j`; `none` is
the initial `i = -1`. -/
def greedyLow (st : SMO) (error_j : ℚ) : Option ℕ :=
  ((List.range st.alpha_.length).foldl
    (fun (acc : Option ℕ × ℚ) k =>
      if !IsBound_ st (st.alpha_.getD k 0) && decide (st.error_.getD k 0 < acc.2) then
        (some k, st.error_.getD k 0)
      else acc)
    (none, error_j)).1

/-- Second greedy scan of `TryChange_` (lines 221-228), for `error_j < 0`. -/
def greedyHigh (st : SMO) (error_j : ℚ) : Option ℕ :=
  ((List.range st.alpha_.length).foldl
    (fun (acc : Option ℕ × ℚ) k =>
      if !IsBound_ st (st.alpha_.getD k 0) && decide (st.error_.getD k 0 > acc.2) then
        (some k, st.error_.getD k 0)
      else acc)
    (none, error_j)).1

/-- The greedy attempt of `TryChange_` (lines 208-232): the flag is `true` when
the attempted `TakeStep_` succeeded, so that `TryChange_` returns `true`, and
`false` when control falls through to the scans; the state is the one the
attempted `TakeStep_` returned, or the state before when none was attempted. -/
def greedyAttempt (st : SMO) (j : ℕ) (error_j : ℚ) : Bool × SMO :=
  if error_j > 0 then
    match greedyLow st error_j with
    | some i => TakeStep_ st i j error_j
    | none => (false, st)
  else if error_j < 0 then
    match greedyHigh st error_j with
    | some i => TakeStep_ st i j error_j
    | none => (false, st)
  else (false, st)

/-- The two cyclic `do ... while (i != start_i)` loops of `TryChange_`
(lines 239-244 with `nonBoundOnly`, lines 251-256 without). One unit of fuel is
one pass through the loop body; `none` means the fuel ran out. -/
def scanLoop (nonBoundOnly : Bool) (j : ℕ) (error_j : ℚ) (start_i : ℕ) :
    ℕ → ℕ → SMO → Option (Bool × SMO)
  | 0, _, _ => none
  | fuel + 1, i, st =>
    let r :=
      if nonBoundOnly && IsBound_ st (st.alpha_.getD i 0) then (false, st)
      else TakeStep_ st i j error_j
    if r.1 then some (true, r.2)
    else
      let i1 := (i + 1) % r.2.alpha_.length
      if i1 ≠ start_i then scanLoop nonBoundOnly j error_j start_i fuel i1 r.2
      else some (false, r.2)

/-- Source `SMO::TryChange_` (lines 196-259). `rnd` is the stream of values of
`rand()` and `p` the number of values drawn so far; the result holds the
returned `bool`, the state on return and the new number of values drawn. Each
scan gets as much fuel as there are examples. -/
def TryChange_ (rnd : ℕ → ℕ) (p : ℕ) (st : SMO) (j : ℕ) : Option (Bool × SMO × ℕ) :=
  let error_j := Error_ st j
  if !KKTViolates st j then some (false, st, p)
  else
    let g := greedyAttempt st j error_j
    if g.1 then some (true, g.2, p)
    else
      let st1 := g.2
      let start_i := rnd p % st1.alpha_.length
      match scanLoop true j error_j start_i st1.alpha_.length start_i st1 with
      | none => none
      | some (true, st2) => some (true, st2, p + 1)
      | some (false, st2) =>
        let start_i := rnd (p + 1) % st2.alpha_.length
        match scanLoop false j error_j start_i st2.alpha_.length start_i st2 with
        | none => none
        | some (b, st3) => some (b, st3, p + 2)

/-! ## The solver loop (smo.h, lines 167-194) -/

/-- Loop of `TrainIteration_` (lines 187-191) over the indices in `is`, carrying
the state, the number of values of `rand()` drawn and `num_changed`. The test
of line 188 is `examine_all || IsBound_(alpha_[i])`, as in the source. -/
def sweep (rnd : ℕ → ℕ) (examine_all : Bool) :
    List ℕ → SMO × ℕ × ℕ → Option (SMO × ℕ × ℕ)
  | [], acc => some acc
  | i :: is, (st, p, num_changed) =>
    if examine_all || IsBound_ st (st.alpha_.getD i 0) then
      match TryChange_ rnd p st i with
      | none => none
      | some (true, st1, p1) => sweep rnd examine_all is (st1, p1, num_changed + 1)
      | some (false, st1, p1) => sweep rnd examine_all is (st1, p1, num_changed)
    else sweep rnd examine_all is (st, p, num_changed)

/-- Source `SMO::TrainIteration_` (lines 183-194): the state on return, the number
of values of `rand()` drawn and the returned `num_changed`. -/
def TrainIteration_ (rnd : ℕ → ℕ) (p : ℕ) (st : SMO) (examine_all : Bool) :
    Option (SMO × ℕ × ℕ) :=
  sweep rnd examine_all (List.range st.alpha_.length) (st, p, 0)

/-- The `do ... while (examine_all)` loop of `Train` (lines 171-180). One unit
of fuel is one sweep. Besides the state, the result lists, oldest first, the
`examine_all` flag and the `num_changed` of every sweep that ran. -/
def TrainLoop (rnd : ℕ → ℕ) :
    ℕ → Bool → SMO × ℕ → List (Bool × ℕ) → Option (SMO × ℕ × List (Bool × ℕ))
  | 0, _, _, _ => none
  | fuel + 1, examine_all, (st, p), log =>
    match TrainIteration_ rnd p st examine_all with
    | none => none
    | some (st1, p1, num_changed) =>
      let examine_all1 :=
        if examine_all then false
        else if num_changed = 0 then true
        else examine_all
      if examine_all1 then
        TrainLoop rnd fuel examine_all1 (st1, p1) (log ++ [(examine_all, num_changed)])
      else some (st1, p1, log ++ [(examine_all, num_changed)])

/-- Source `SMO::Train` (lines 167-181), started with `examine_all = true`. -/
def Train (rnd : ℕ → ℕ) (fuel : ℕ) (p : ℕ) (st : SMO) :
    Option (SMO × ℕ × List (Bool × ℕ)) :=
  TrainLoop rnd fuel true (st, p) []

/-! ## Inputs used in the examples -/

/-- The linear kernel: the dot product of the two feature vectors. -/
def LinearKernel : Kernel := fun a b => (List.zipWith (fun x y => x * y) a b).sum

/-- Two examples of one feature each, one per class: `x_0 = (1)` with label
`+1` (stored as `1`) and `x_1 = (-1)` with label `-1` (stored as `0`). -/
def pairData : Dataset := { matrix := { n_rows := 2, cols := [[1, 1], [-1, 0]] } }

/-- Four separable points in the plane, two per class: `(0,0)` and `(0,1)`
labelled `-1`, `(3,0)` and `(3,1)` labelled `+1`. -/
def squareData : Dataset :=
  { matrix := { n_rows := 3, cols := [[0, 0, 0], [0, 1, 0], [3, 0, 1], [3, 1, 1]] } }

/-- A dataset without any example. -/
def emptyData : Dataset := { matrix := { n_rows := 1, cols := [] } }

/-- A solver state over `pairData` with `C = 1` in which both multipliers are
non-bound: `alpha_ = (1/2, 1/2)`, `error_ = (0, 1)`, `thresh_ = 0`. -/
def midState : SMO :=
  { kernel_ := LinearKernel
    matrix_ := pairData.matrix
    alpha_ := [1/2, 1/2]
    error_ := [0, 1]
    thresh_ := 0
    c_ := 1 }

/-! ## Quantities named by the specification -/

/-- The equality-constraint sum of the dual problem: the sum over all `k` of
`y_k * alpha_k`, with `y_k` the label sign of example `k`. -/
def labelledAlphaSum (st : SMO) : ℚ :=
  ((List.range st.alpha_.length).map (fun k => GetLabelSign_ st k * st.alpha_.getD k 0)).sum

/-- The decision value of the specification at example `i`: the sum over all
`j` of `y_j * alpha_j * K(x_j, x_i)` minus the threshold, with `y_j` the label
sign of the summed example `j`. -/
def decisionValue (st : SMO) (i : ℕ) : ℚ :=
  ((List.range st.matrix_.n_cols).map
    (fun j => GetLabelSign_ st j * st.alpha_.getD j 0
      * st.kernel_ (GetVector_ st j) (GetVector_ st i))).sum - st.thresh_

/-- Every multiplier of the state lies in `[0, C]`. -/
def InBox (st : SMO) : Prop :=
  ∀ k, k < st.alpha_.length → 0 ≤ st.alpha_.getD k 0 ∧ st.alpha_.getD k 0 ≤ st.c_

/-- No call of `TakeStep_` changes the state or returns `true`. -/
def Stuck (st : SMO) : Prop := ∀ i j error_j, TakeStep_ st i j error_j = (false, st)

/-- Outcome of the call `Init(dataset_in, c_in)` seen as an operation that may
fail. Lines 36-49 of the source test none of their arguments, return no error
and never abort, so the outcome is always the state that `Init` builds. -/
def InitOutcome (kernel_ : Kernel) (dataset_in : Dataset) (c_in : ℚ) : Except String SMO :=
  Except.ok (Init kernel_ dataset_in c_in)

/-- Two examples of one feature each, both of the class stored as `1`. -/
def oneClassData : Dataset := { matrix := { n_rows := 2, cols := [[1, 1], [2, 1]] } }

/-- A solver state over `pairData` with `C = 1` whose error cache agrees with
the decision function: `alpha_ = (1/4, 1/4)`, `error_ = (-1/2, 1/2)`,
`thresh_ = 0`. -/
def quarterState : SMO :=
  { kernel_ := LinearKernel
    matrix_ := pairData.matrix
    alpha_ := [1/4, 1/4]
    error_ := [-(1/2), 1/2]
    thresh_ := 0
    c_ := 1 }

/-- The error cache agrees with the decision function of the specification:
for every non-bound index `k` the cached `error_[k]` is within `1e-4` of
`decisionValue k - y_k`. -/
def CacheConsistent (st : SMO) : Prop :=
  ∀ k, k < st.alpha_.length → IsBound_ st (st.alpha_.getD k 0) = false →
    |st.error_.getD k 0 - (decisionValue st k - GetLabelSign_ st k)| ≤ SMO_EPS

/-- The cyclic loops of `scanLoop` once more, with the number of `TakeStep_`
calls made as a third component of the result. -/
def scanLoopCount (nonBoundOnly : Bool) (j : ℕ) (error_j : ℚ) (start_i : ℕ) :
    ℕ → ℕ → SMO → Option (Bool × SMO × ℕ)
  | 0, _, _ => none
  | fuel + 1, i, st =>
    let skip := nonBoundOnly && IsBound_ st (st.alpha_.getD i 0)
    let r := if skip then (false, st) else TakeStep_ st i j error_j
    let calls := if skip then 0 else 1
    if r.1 then some (true, r.2, calls)
    else
      let i1 := (i + 1) % r.2.alpha_.length
      if i1 ≠ start_i then
        match scanLoopCount nonBoundOnly j error_j start_i fuel i1 r.2 with
        | none => none
        | some (b, st1, n) => some (b, st1, calls + n)
      else some (false, r.2, calls)

/-- Number of `TakeStep_` calls made by the greedy attempt of `TryChange_`
(lines 208-232): one when the scan found a partner, none otherwise. -/
def greedyCalls (st : SMO) (error_j : ℚ) : ℕ :=
  if error_j > 0 then
    match greedyLow st error_j with
    | some _ => 1
    | none => 0
  else if error_j < 0 then
    match greedyHigh st error_j with
    | some _ => 1
    | none => 0
  else 0

/-- The function `TryChange_` once more, with the number of `TakeStep_` calls
made as a fourth component of the result. -/
def TryChangeCounted (rnd : ℕ → ℕ) (p : ℕ) (st : SMO) (j : ℕ) : Option (Bool × SMO × ℕ × ℕ) :=
  let error_j := Error_ st j
  if !KKTViolates st j then some (false, st, p, 0)
  else
    let g := greedyAttempt st j error_j
    let n0 := greedyCalls st error_j
    if g.1 then some (true, g.2, p, n0)
    else
      let st1 := g.2
      let start_i := rnd p % st1.alpha_.length
      match scanLoopCount true j error_j start_i st1.alpha_.length start_i st1 with
      | none => none
      | some (true, st2, n1) => some (true, st2, p + 1, n0 + n1)
      | some (false, st2, n1) =>
        let start_i := rnd (p + 1) % st2.alpha_.length
        match scanLoopCount false j error_j start_i st2.alpha_.length start_i st2 with
        | none => none
        | some (b, st3, n2) => some (b, st3, p + 2, n0 + n1 + n2)

/-- A solver state with `C = 1` over two examples of the same feature vector
`(1)` and opposite labels, so that `eta = 0` for the pair: `alpha_ = (1/2, 1/2)`,
`error_ = (0, 1)`, `thresh_ = 0`. -/
def flatState : SMO :=
  { kernel_ := LinearKernel
    matrix_ := { n_rows := 2, cols := [[1, 1], [1, 0]] }
    alpha_ := [1/2, 1/2]
    error_ := [0, 1]
    thresh_ := 0
    c_ := 1 }

/-- Index `k` is the partner the specification names for `error_j > 0`: the
lowest index among the non-bound examples whose cached error is the minimum
over the non-bound examples, that minimum being strictly below `error_j`. -/
def IsGreedyLow (st : SMO) (error_j : ℚ) (k : ℕ) : Prop :=
  k < st.alpha_.length ∧ IsBound_ st (st.alpha_.getD k 0) = false
    ∧ st.error_.getD k 0 < error_j
    ∧ (∀ m, m < st.alpha_.length → IsBound_ st (st.alpha_.getD m 0) = false →
        st.error_.getD k 0 ≤ st.error_.getD m 0)
    ∧ (∀ m, m < k → IsBound_ st (st.alpha_.getD m 0) = false →
        st.error_.getD k 0 < st.error_.getD m 0)

/-- Index `k` is the partner the specification names for `error_j < 0`: the
lowest index among the non-bound examples whose cached error is the maximum
over the non-bound examples, that maximum being strictly above `error_j`. -/
def IsGreedyHigh (st : SMO) (error_j : ℚ) (k : ℕ) : Prop :=
  k < st.alpha_.length ∧ IsBound_ st (st.alpha_.getD k 0) = false
    ∧ error_j < st.error_.getD k 0
    ∧ (∀ m, m < st.alpha_.length → IsBound_ st (st.alpha_.getD m 0) = false →
        st.error_.getD m 0 ≤ st.error_.getD k 0)
    ∧ (∀ m, m < k → IsBound_ st (st.alpha_.getD m 0) = false →
        st.error_.getD m 0 < st.error_.getD k 0)

/-! ## Auxiliary lemmas -/

theorem getD_set_eq (l : List ℚ) (m n : ℕ) (a d : ℚ) :
    (l.set m a).getD n d = if m = n ∧ m < l.length then a else l.getD n d := by
  by_cases hn : n < l.length
  · have hn2 : n < (l.set m a).length := by simpa using hn
    rw [List.getD_eq_getElem _ _ hn2, List.getD_eq_getElem _ _ hn, List.getElem_set]
    by_cases hm : m = n
    · subst hm; simp [hn]
    · simp [hm]
  · rw [List.getD_eq_default _ _ (by simpa using hn), List.getD_eq_default _ _ (by omega)]
    have : ¬ (m = n ∧ m < l.length) := by rintro ⟨rfl, h⟩; exact hn h
    simp [this]

theorem FixAlpha_nonneg (st : SMO) (hc : 0 ≤ st.c_) (a : ℚ) : 0 ≤ FixAlpha_ st a := by
  unfold FixAlpha_
  split_ifs with h1 h2
  · exact le_refl 0
  · exact hc
  · have : (0 : ℚ) < SMO_ZERO := by norm_num [SMO_ZERO]
    linarith [not_lt.mp h1]

theorem FixAlpha_le (st : SMO) (hc : 0 ≤ st.c_) (a : ℚ) : FixAlpha_ st a ≤ st.c_ := by
  unfold FixAlpha_
  split_ifs with h1 h2
  · exact hc
  · exact le_refl _
  · have : (0 : ℚ) < SMO_ZERO := by norm_num [SMO_ZERO]
    linarith [not_lt.mp h2]

theorem TakeStep_unfold (st : SMO) (i j : ℕ) (error_j : ℚ) :
    TakeStep_ st i j error_j =
      if i = j then (false, st)
      else if TakeStep_l st i j = TakeStep_u st i j then (false, st)
      else if |TakeStep_alpha_j st i j error_j - st.alpha_.getD j 0|
          < SMO_EPS * (TakeStep_alpha_j st i j error_j + st.alpha_.getD j 0 + SMO_EPS) then
        (false, st)
      else
        (true,
          { st with
            error_ := TakeStep_error st i j error_j
            thresh_ := TakeStep_thresh_new st i j error_j
            alpha_ := (st.alpha_.set i (TakeStep_alpha_i st i j error_j)).set j
              (TakeStep_alpha_j st i j error_j) }) := rfl

theorem TakeStep_false_state (st : SMO) (i j : ℕ) (error_j : ℚ)
    (h : (TakeStep_ st i j error_j).1 = false) : (TakeStep_ st i j error_j).2 = st := by
  rw [TakeStep_unfold] at h ⊢
  split_ifs at h ⊢ <;> simp_all

theorem TakeStep_c (st : SMO) (i j : ℕ) (error_j : ℚ) :
    (TakeStep_ st i j error_j).2.c_ = st.c_ := by
  rw [TakeStep_unfold]
  split_ifs <;> rfl

theorem TakeStep_matrix (st : SMO) (i j : ℕ) (error_j : ℚ) :
    (TakeStep_ st i j error_j).2.matrix_ = st.matrix_ := by
  rw [TakeStep_unfold]
  split_ifs <;> rfl

theorem TakeStep_kernel (st : SMO) (i j : ℕ) (error_j : ℚ) :
    (TakeStep_ st i j error_j).2.kernel_ = st.kernel_ := by
  rw [TakeStep_unfold]
  split_ifs <;> rfl

theorem TakeStep_alpha_length (st : SMO) (i j : ℕ) (error_j : ℚ) :
    (TakeStep_ st i j error_j).2.alpha_.length = st.alpha_.length := by
  rw [TakeStep_unfold]
  split_ifs <;> simp

theorem TakeStep_alpha_getD (st : SMO) (i j : ℕ) (error_j : ℚ) (k : ℕ) :
    (TakeStep_ st i j error_j).2.alpha_.getD k 0 = st.alpha_.getD k 0
      ∨ (TakeStep_ st i j error_j).2.alpha_.getD k 0 = TakeStep_alpha_i st i j error_j
      ∨ (TakeStep_ st i j error_j).2.alpha_.getD k 0 = TakeStep_alpha_j st i j error_j := by
  rw [TakeStep_unfold]
  split_ifs
  · exact Or.inl rfl
  · exact Or.inl rfl
  · exact Or.inl rfl
  · simp only [getD_set_eq]
    split_ifs
    · exact Or.inr (Or.inr rfl)
    · exact Or.inr (Or.inl rfl)
    · exact Or.inl rfl

theorem TakeStep_alpha_other (st : SMO) (i j : ℕ) (error_j : ℚ) (k : ℕ)
    (hi : k ≠ i) (hj : k ≠ j) :
    (TakeStep_ st i j error_j).2.alpha_.getD k 0 = st.alpha_.getD k 0 := by
  rw [TakeStep_unfold]
  split_ifs
  · rfl
  · rfl
  · rfl
  · simp only [getD_set_eq]
    rw [if_neg (fun h => hj h.1.symm), if_neg (fun h => hi h.1.symm)]

/-! ### States in which every pairwise step is rejected -/

theorem TakeStep_r_zero (st : SMO) (hz : ∀ k, st.alpha_.getD k 0 = 0) (i j : ℕ) :
    TakeStep_r st i j = -st.c_ := by
  have hs : ¬ GetLabelSign_ st i * GetLabelSign_ st i < 0 :=
    not_lt.mpr (mul_self_nonneg _)
  simp only [TakeStep_r, if_neg hs, hz]
  ring

theorem stuck_of_zero (st : SMO) (hc : 0 ≤ st.c_) (hz : ∀ k, st.alpha_.getD k 0 = 0) :
    Stuck st := by
  intro i j error_j
  rw [TakeStep_unfold]
  by_cases hij : i = j
  · rw [if_pos hij]
  · have hlu : TakeStep_l st i j = TakeStep_u st i j := by
      simp only [TakeStep_l, TakeStep_u, ClampNonNegative, ClampNonPositive,
        TakeStep_r_zero st hz]
      rw [max_eq_left (by linarith), min_eq_right (by linarith)]
      ring
    rw [if_neg hij, if_pos hlu]

theorem Init_alpha_getD (kernel_ : Kernel) (ds : Dataset) (c : ℚ) (k : ℕ) :
    (Init kernel_ ds c).alpha_.getD k 0 = 0 := by
  simp only [Init]
  by_cases hk : k < (List.replicate ds.matrix.n_cols (0 : ℚ)).length
  · rw [List.getD_eq_getElem _ _ hk]; simp
  · rw [List.getD_eq_default _ _ (not_lt.mp hk)]

theorem Init_stuck (kernel_ : Kernel) (ds : Dataset) (c : ℚ) (hc : 0 ≤ c) :
    Stuck (Init kernel_ ds c) :=
  stuck_of_zero _ hc (Init_alpha_getD kernel_ ds c)

theorem greedyAttempt_stuck (st : SMO) (hs : Stuck st) (j : ℕ) (error_j : ℚ) :
    greedyAttempt st j error_j = (false, st) := by
  unfold greedyAttempt
  split_ifs
  · cases greedyLow st error_j with
    | none => rfl
    | some i => exact hs i j error_j
  · cases greedyHigh st error_j with
    | none => rfl
    | some i => exact hs i j error_j
  · rfl

theorem mod_succ_ne_start (n start t : ℕ) (hstart : start < n) (ht : t < n)
    (h : ((start + t) % n + 1) % n ≠ start) : t + 1 < n := by
  by_contra hcon
  have ht1 : t + 1 = n := by omega
  apply h
  rw [Nat.add_mod, Nat.mod_mod, ← Nat.add_mod]
  have : start + t + 1 = start + n := by omega
  rw [this, Nat.add_mod_right, Nat.mod_eq_of_lt hstart]

theorem scanLoop_stuck (st : SMO) (hs : Stuck st) (nb : Bool) (j : ℕ) (error_j : ℚ)
    (start : ℕ) (hstart : start < st.alpha_.length) :
    ∀ (fuel t : ℕ), t < st.alpha_.length → st.alpha_.length ≤ fuel + t →
      scanLoop nb j error_j start fuel ((start + t) % st.alpha_.length) st
        = some (false, st) := by
  intro fuel
  induction fuel with
  | zero => intro t ht hf; omega
  | succ fuel ih =>
    intro t ht hf
    have hr : (if (nb && IsBound_ st (st.alpha_.getD ((start + t) % st.alpha_.length) 0)) = true
        then (false, st)
        else TakeStep_ st ((start + t) % st.alpha_.length) j error_j) = (false, st) := by
      split_ifs
      · rfl
      · exact hs _ _ _
    rw [scanLoop]
    simp only [hr, Bool.false_eq_true, if_false]
    by_cases hne : ((start + t) % st.alpha_.length + 1) % st.alpha_.length ≠ start
    · have ht1 := mod_succ_ne_start _ _ _ hstart ht hne
      have hidx : ((start + t) % st.alpha_.length + 1) % st.alpha_.length
          = (start + (t + 1)) % st.alpha_.length := by
        rw [Nat.add_mod ((start + t) % st.alpha_.length) 1, Nat.mod_mod, ← Nat.add_mod]
        rfl
      rw [if_pos hne, hidx]
      exact ih (t + 1) ht1 (by omega)
    · rw [if_neg hne]

theorem TryChange_stuck (rnd : ℕ → ℕ) (p : ℕ) (st : SMO) (hs : Stuck st) (j : ℕ)
    (hn : 0 < st.alpha_.length) :
    TryChange_ rnd p st j = some (false, st, if KKTViolates st j then p + 2 else p) := by
  have h1 := scanLoop_stuck st hs true j (Error_ st j) (rnd p % st.alpha_.length)
    (Nat.mod_lt _ hn) st.alpha_.length 0 hn (by omega)
  have h2 := scanLoop_stuck st hs false j (Error_ st j) (rnd (p + 1) % st.alpha_.length)
    (Nat.mod_lt _ hn) st.alpha_.length 0 hn (by omega)
  simp only [Nat.add_zero, Nat.mod_mod] at h1 h2
  unfold TryChange_
  by_cases hk : KKTViolates st j = true
  · simp [hk, greedyAttempt_stuck st hs, h1, h2]
  · simp [hk]

theorem sweep_stuck (rnd : ℕ → ℕ) (examine_all : Bool) (st : SMO) (hs : Stuck st)
    (hn : 0 < st.alpha_.length) (is : List ℕ) :
    ∀ (p num_changed : ℕ),
      ∃ p1, sweep rnd examine_all is (st, p, num_changed) = some (st, p1, num_changed) := by
  induction is with
  | nil => intro p num_changed; exact ⟨p, rfl⟩
  | cons i is ih =>
    intro p num_changed
    simp only [sweep, TryChange_stuck rnd p st hs i hn]
    split_ifs <;> exact ih _ _

theorem TrainIteration_stuck (rnd : ℕ → ℕ) (p : ℕ) (st : SMO) (hs : Stuck st)
    (examine_all : Bool) :
    ∃ p1, TrainIteration_ rnd p st examine_all = some (st, p1, 0) := by
  unfold TrainIteration_
  by_cases hn : 0 < st.alpha_.length
  · exact sweep_stuck rnd examine_all st hs hn _ p 0
  · have h0 : st.alpha_.length = 0 := by omega
    rw [h0]
    exact ⟨p, rfl⟩

theorem Train_stuck (rnd : ℕ → ℕ) (fuel p : ℕ) (st : SMO) (hs : Stuck st) :
    ∃ p1, Train rnd (fuel + 1) p st = some (st, p1, [(true, 0)]) := by
  obtain ⟨p1, h1⟩ := TrainIteration_stuck rnd p st hs true
  exact ⟨p1, by simp [Train, TrainLoop, h1]⟩

/-! ### The loops return -/

theorem scanLoop_returns (nb : Bool) (j : ℕ) (error_j : ℚ) (st : SMO)
    (start : ℕ) (hstart : start < st.alpha_.length) :
    ∀ (fuel t : ℕ), t < st.alpha_.length → st.alpha_.length ≤ fuel + t →
      ∃ b st1, scanLoop nb j error_j start fuel ((start + t) % st.alpha_.length) st
          = some (b, st1)
        ∧ st1.alpha_.length = st.alpha_.length ∧ (b = false → st1 = st) := by
  intro fuel
  induction fuel with
  | zero => intro t ht hf; omega
  | succ fuel ih =>
    intro t ht hf
    rw [scanLoop]
    generalize hr : (if (nb && IsBound_ st (st.alpha_.getD ((start + t) % st.alpha_.length) 0))
        = true then (false, st)
        else TakeStep_ st ((start + t) % st.alpha_.length) j error_j) = r
    have hlen : r.2.alpha_.length = st.alpha_.length := by
      rw [← hr]; split_ifs
      · rfl
      · exact TakeStep_alpha_length _ _ _ _
    have hst : r.1 = false → r.2 = st := by
      rw [← hr]; split_ifs
      · intro _; rfl
      · exact TakeStep_false_state _ _ _ _
    by_cases hb : r.1 = true
    · simp only [hb, if_true]
      exact ⟨true, r.2, rfl, hlen, fun h => by cases h⟩
    · have hb2 : r.1 = false := by simpa using hb
      have hr2 := hst hb2
      simp only [hb2, Bool.false_eq_true, if_false, hr2]
      by_cases hne : ((start + t) % st.alpha_.length + 1) % st.alpha_.length ≠ start
      · have ht1 := mod_succ_ne_start _ _ _ hstart ht hne
        have hidx : ((start + t) % st.alpha_.length + 1) % st.alpha_.length
            = (start + (t + 1)) % st.alpha_.length := by
          rw [Nat.add_mod ((start + t) % st.alpha_.length) 1, Nat.mod_mod, ← Nat.add_mod]
          rfl
        rw [if_pos hne, hidx]
        exact ih (t + 1) ht1 (by omega)
      · rw [if_neg hne]
        exact ⟨false, st, rfl, rfl, fun _ => rfl⟩

theorem greedyAttempt_state (st : SMO) (j : ℕ) (error_j : ℚ) :
    (greedyAttempt st j error_j).2.alpha_.length = st.alpha_.length
      ∧ ((greedyAttempt st j error_j).1 = false → (greedyAttempt st j error_j).2 = st) := by
  unfold greedyAttempt
  split_ifs
  · cases greedyLow st error_j with
    | none => exact ⟨rfl, fun _ => rfl⟩
    | some i => exact ⟨TakeStep_alpha_length _ _ _ _, TakeStep_false_state _ _ _ _⟩
  · cases greedyHigh st error_j with
    | none => exact ⟨rfl, fun _ => rfl⟩
    | some i => exact ⟨TakeStep_alpha_length _ _ _ _, TakeStep_false_state _ _ _ _⟩
  · exact ⟨rfl, fun _ => rfl⟩

theorem TryChange_returns (rnd : ℕ → ℕ) (p : ℕ) (st : SMO) (j : ℕ)
    (hn : 0 < st.alpha_.length) :
    ∃ b st1 p1, TryChange_ rnd p st j = some (b, st1, p1)
      ∧ st1.alpha_.length = st.alpha_.length ∧ (b = false → st1 = st) := by
  unfold TryChange_
  by_cases hk : KKTViolates st j = true
  · simp only [hk, Bool.not_true, Bool.false_eq_true, if_false]
    obtain ⟨hglen, hgst⟩ := greedyAttempt_state st j (Error_ st j)
    by_cases hg : (greedyAttempt st j (Error_ st j)).1 = true
    · simp only [hg, if_true]
      exact ⟨true, _, p, rfl, hglen, fun h => by cases h⟩
    · have hg2 : (greedyAttempt st j (Error_ st j)).1 = false := by simpa using hg
      simp only [hg2, Bool.false_eq_true, if_false, hgst hg2]
      obtain ⟨b1, s1, h1, hl1, hs1⟩ := scanLoop_returns true j (Error_ st j) st
        (rnd p % st.alpha_.length) (Nat.mod_lt _ hn) st.alpha_.length 0 hn (by omega)
      simp only [Nat.add_zero, Nat.mod_mod] at h1
      rw [h1]
      cases b1 with
      | true => exact ⟨true, s1, p + 1, rfl, hl1, fun h => by cases h⟩
      | false =>
        have hs1st := hs1 rfl
        subst hs1st
        obtain ⟨b2, s2, h2, hl2, hs2⟩ := scanLoop_returns false j (Error_ s1 j) s1
          (rnd (p + 1) % s1.alpha_.length) (Nat.mod_lt _ hn) s1.alpha_.length 0 hn
          (by omega)
        simp only [Nat.add_zero, Nat.mod_mod] at h2
        simp only [h2]
        exact ⟨b2, s2, p + 2, rfl, hl2, hs2⟩
  · have hk2 : KKTViolates st j = false := by simpa using hk
    simp only [hk2, Bool.not_false, if_true]
    exact ⟨false, st, p, rfl, rfl, fun _ => rfl⟩

theorem sweep_returns (rnd : ℕ → ℕ) (examine_all : Bool) (is : List ℕ) :
    ∀ (st : SMO) (p num_changed : ℕ), 0 < st.alpha_.length →
      ∃ st1 p1 n1, sweep rnd examine_all is (st, p, num_changed) = some (st1, p1, n1)
        ∧ st1.alpha_.length = st.alpha_.length := by
  induction is with
  | nil => intro st p n _; exact ⟨st, p, n, rfl, rfl⟩
  | cons i is ih =>
    intro st p n hn
    rw [sweep]
    split_ifs
    · obtain ⟨b, s1, p1, h1, hl1, _⟩ := TryChange_returns rnd p st i hn
      rw [h1]
      cases b with
      | true =>
        obtain ⟨s2, p2, n2, h2, hl2⟩ := ih s1 p1 (n + 1) (by omega)
        exact ⟨s2, p2, n2, h2, by omega⟩
      | false =>
        obtain ⟨s2, p2, n2, h2, hl2⟩ := ih s1 p1 n (by omega)
        exact ⟨s2, p2, n2, h2, by omega⟩
    · exact ih st p n hn

theorem TrainIteration_returns (rnd : ℕ → ℕ) (p : ℕ) (st : SMO) (examine_all : Bool) :
    ∃ st1 p1 n1, TrainIteration_ rnd p st examine_all = some (st1, p1, n1) := by
  unfold TrainIteration_
  by_cases hn : 0 < st.alpha_.length
  · obtain ⟨s1, p1, n1, h, _⟩ := sweep_returns rnd examine_all _ st p 0 hn
    exact ⟨s1, p1, n1, h⟩
  · have h0 : st.alpha_.length = 0 := by omega
    rw [h0]
    exact ⟨st, p, 0, rfl⟩

theorem Train_returns (rnd : ℕ → ℕ) (fuel p : ℕ) (st : SMO) :
    ∃ st1 p1 n1, Train rnd (fuel + 1) p st = some (st1, p1, [(true, n1)]) := by
  obtain ⟨s1, p1, n1, h⟩ := TrainIteration_returns rnd p st true
  exact ⟨s1, p1, n1, by simp [Train, TrainLoop, h]⟩

/-! ### Evaluation of the pairwise step on `midState` -/

theorem midState_label0 : GetLabelSign_ midState 0 = 1 := by
  norm_num [GetLabelSign_, midState, pairData, Matrix.get]

theorem midState_label1 : GetLabelSign_ midState 1 = -1 := by
  norm_num [GetLabelSign_, midState, pairData, Matrix.get]

theorem midState_vec0 : GetVector_ midState 0 = [1] := by
  simp [GetVector_, midState, pairData, Matrix.MakeColumnSubvector]

theorem midState_vec1 : GetVector_ midState 1 = [-1] := by
  simp [GetVector_, midState, pairData, Matrix.MakeColumnSubvector]

theorem midState_k00 : EvalKernel_ midState 0 0 = 1 := by
  rw [EvalKernel_, midState_vec0]; norm_num [midState, LinearKernel]

theorem midState_k01 : EvalKernel_ midState 0 1 = -1 := by
  rw [EvalKernel_, midState_vec0, midState_vec1]; norm_num [midState, LinearKernel]

theorem midState_k11 : EvalKernel_ midState 1 1 = 1 := by
  rw [EvalKernel_, midState_vec1]; norm_num [midState, LinearKernel]

theorem midState_error0 : Error_ midState 0 = 0 := by
  norm_num [Error_, IsBound_, midState]

theorem midState_error1 : Error_ midState 1 = 1 := by
  norm_num [Error_, IsBound_, midState]

theorem midState_l : TakeStep_l midState 0 1 = 0 := by
  norm_num [TakeStep_l, TakeStep_r, ClampNonNegative, midState_label0, midState]

theorem midState_u : TakeStep_u midState 0 1 = 1 := by
  norm_num [TakeStep_u, TakeStep_r, ClampNonPositive, midState_label0, midState]

theorem midState_alpha_j : TakeStep_alpha_j midState 0 1 1 = 1/4 := by
  have heta : TakeStep_eta midState 0 1 = -4 := by
    norm_num [TakeStep_eta, midState_k00, midState_k01, midState_k11]
  have hraw : TakeStep_alpha_j_raw midState 0 1 1 = 1/4 := by
    simp only [TakeStep_alpha_j_raw, heta, midState_l, midState_u, midState_label0,
      midState_error0]
    norm_num [ClampRange, midState]
  rw [TakeStep_alpha_j, hraw]
  norm_num [FixAlpha_, SMO_ZERO, midState]

theorem midState_alpha_i : TakeStep_alpha_i midState 0 1 1 = 3/4 := by
  simp only [TakeStep_alpha_i, midState_alpha_j, midState_label0]
  norm_num [FixAlpha_, SMO_ZERO, midState]

theorem midState_step :
    (TakeStep_ midState 0 1 1).1 = true
      ∧ (TakeStep_ midState 0 1 1).2.alpha_ = [3/4, 1/4] := by
  have hα : midState.alpha_.getD 1 0 = 1/2 := by simp [midState]
  have hcond : ¬ (|(1/4 : ℚ) - 1/2| < SMO_EPS * (1/4 + 1/2 + SMO_EPS)) := by
    rw [abs_of_neg (by norm_num)]
    norm_num [SMO_EPS]
  rw [TakeStep_unfold]
  simp only [midState_l, midState_u, midState_alpha_j, midState_alpha_i, hα]
  rw [if_neg (by norm_num), if_neg (by norm_num), if_neg hcond]
  simp [midState]

theorem midState_inBox : InBox midState := by
  intro k hk
  have hk2 : k < 2 := by simpa [midState] using hk
  interval_cases k <;> norm_num [midState]

/-! ## The box invariant of the pairwise step -/

/-- C1: for every `C >= 0` and every state whose multipliers all lie in
`[0, C]`, after `TakeStep_(i, j, error_j)` returns, with either result, `C` and
the number of multipliers are unchanged, every multiplier still lies in
`[0, C]`, the two values computed for `alpha_i` and `alpha_j` lie in `[0, C]`,
and no multiplier other than those at `i` and `j` has changed. -/
theorem TakeStep_box_invariant (st : SMO) (i j : ℕ) (error_j : ℚ)
    (hc : 0 ≤ st.c_) (hbox : InBox st) :
    (TakeStep_ st i j error_j).2.c_ = st.c_
      ∧ (TakeStep_ st i j error_j).2.alpha_.length = st.alpha_.length
      ∧ InBox (TakeStep_ st i j error_j).2
      ∧ (0 ≤ TakeStep_alpha_i st i j error_j ∧ TakeStep_alpha_i st i j error_j ≤ st.c_)
      ∧ (0 ≤ TakeStep_alpha_j st i j error_j ∧ TakeStep_alpha_j st i j error_j ≤ st.c_)
      ∧ (∀ k, k ≠ i → k ≠ j →
          (TakeStep_ st i j error_j).2.alpha_.getD k 0 = st.alpha_.getD k 0) := by
  have hi : 0 ≤ TakeStep_alpha_i st i j error_j ∧ TakeStep_alpha_i st i j error_j ≤ st.c_ :=
    ⟨FixAlpha_nonneg st hc _, FixAlpha_le st hc _⟩
  have hj : 0 ≤ TakeStep_alpha_j st i j error_j ∧ TakeStep_alpha_j st i j error_j ≤ st.c_ :=
    ⟨FixAlpha_nonneg st hc _, FixAlpha_le st hc _⟩
  refine ⟨TakeStep_c st i j error_j, TakeStep_alpha_length st i j error_j, ?_, hi, hj,
    fun k hki hkj => TakeStep_alpha_other st i j error_j k hki hkj⟩
  intro k hk
  rw [TakeStep_alpha_length] at hk
  rw [TakeStep_c]
  rcases TakeStep_alpha_getD st i j error_j k with h | h | h
  · rw [h]; exact hbox k hk
  · rw [h]; exact hi
  · rw [h]; exact hj

/-- Witness of C1 on `midState` with the pair `(0, 1)` and `error_j = 1`, a step
that is taken. -/
theorem TakeStep_box_invariant_witness :
    (0 ≤ midState.c_ ∧ InBox midState)
      ∧ ((TakeStep_ midState 0 1 1).2.c_ = midState.c_
        ∧ (TakeStep_ midState 0 1 1).2.alpha_.length = midState.alpha_.length
        ∧ InBox (TakeStep_ midState 0 1 1).2
        ∧ (0 ≤ TakeStep_alpha_i midState 0 1 1
            ∧ TakeStep_alpha_i midState 0 1 1 ≤ midState.c_)
        ∧ (0 ≤ TakeStep_alpha_j midState 0 1 1
            ∧ TakeStep_alpha_j midState 0 1 1 ≤ midState.c_)
        ∧ (∀ k, k ≠ 0 → k ≠ 1 →
            (TakeStep_ midState 0 1 1).2.alpha_.getD k 0 = midState.alpha_.getD k 0)) :=
  ⟨⟨by norm_num [midState], midState_inBox⟩,
    TakeStep_box_invariant midState 0 1 1 (by norm_num [midState]) midState_inBox⟩

/-! ## The equality constraint -/

/-- C2, evaluated on `midState`, whose two examples have opposite labels: the
step on the pair `(0, 1)` with `error_j = 1` is taken, and it moves the sum of
`y_k * alpha_k` from `0` to `1/2`, far more than `1e-8`. -/
theorem TakeStep_opposite_labels_sum :
    GetLabelSign_ midState 0 = 1 ∧ GetLabelSign_ midState 1 = -1
      ∧ InBox midState
      ∧ (TakeStep_ midState 0 1 1).1 = true
      ∧ labelledAlphaSum midState = 0
      ∧ labelledAlphaSum (TakeStep_ midState 0 1 1).2 = 1/2 := by
  refine ⟨midState_label0, midState_label1, midState_inBox, midState_step.1, ?_, ?_⟩
  · have h2 : List.range 2 = [0, 1] := rfl
    simp only [labelledAlphaSum, show midState.alpha_.length = 2 from rfl, h2, List.map,
      midState_label0, midState_label1]
    norm_num [midState]
  · have hl0 : GetLabelSign_ (TakeStep_ midState 0 1 1).2 0 = 1 := by
      rw [GetLabelSign_, TakeStep_matrix]; exact midState_label0
    have hl1 : GetLabelSign_ (TakeStep_ midState 0 1 1).2 1 = -1 := by
      rw [GetLabelSign_, TakeStep_matrix]; exact midState_label1
    have h2 : List.range 2 = [0, 1] := rfl
    simp only [labelledAlphaSum, midState_step.2, List.length_cons, List.length_nil, h2,
      List.map, hl0, hl1]
    norm_num

/-! ## The solver loop -/

theorem midState_kkt0 : KKTViolates midState 0 = false := by
  simp only [KKTViolates, midState_error0, midState_label0]
  norm_num [SMO_TOLERANCE]

theorem midState_kkt1 : KKTViolates midState 1 = true := by
  simp only [KKTViolates, midState_error1, midState_label1]
  norm_num [SMO_TOLERANCE, midState]

theorem midState_greedyLow : greedyLow midState 1 = some 0 := by
  have h2 : List.range 2 = [0, 1] := rfl
  simp only [greedyLow, show midState.alpha_.length = 2 from rfl, h2, List.foldl]
  norm_num [IsBound_, midState]

theorem midState_TryChange0 (rnd : ℕ → ℕ) (p : ℕ) :
    TryChange_ rnd p midState 0 = some (false, midState, p) := by
  simp [TryChange_, midState_kkt0]

theorem midState_TryChange1 (rnd : ℕ → ℕ) (p : ℕ) :
    TryChange_ rnd p midState 1 = some (true, (TakeStep_ midState 0 1 1).2, p) := by
  have hg : greedyAttempt midState 1 1 = TakeStep_ midState 0 1 1 := by
    simp [greedyAttempt, midState_greedyLow]
  simp [TryChange_, midState_kkt1, midState_error1, hg, midState_step.1]

/-- C3, evaluated on `midState` (two examples, `C = 1`, both multipliers inside
the box): `Train` runs a single sweep, a full one, in which one `TryChange_`
call succeeds, and returns right after it; the log of sweeps is `[(true, 1)]`,
so the last sweep executed does not have zero successful updates. -/
theorem Train_returns_after_changing_sweep (rnd : ℕ → ℕ) (fuel p : ℕ) :
    InBox midState ∧ midState.alpha_.length = 2
      ∧ Train rnd (fuel + 1) p midState
        = some ((TakeStep_ midState 0 1 1).2, p, [(true, 1)]) := by
  refine ⟨midState_inBox, rfl, ?_⟩
  have h2 : List.range 2 = [0, 1] := rfl
  simp [Train, TrainLoop, TrainIteration_, show midState.alpha_.length = 2 from rfl, h2,
    sweep, midState_TryChange0, midState_TryChange1]

/-! ## Training from the state left by `Init` -/

theorem Init_decisionValue (kernel_ : Kernel) (ds : Dataset) (c : ℚ) (i : ℕ) :
    decisionValue (Init kernel_ ds c) i = 0 := by
  simp only [decisionValue, Init_alpha_getD, mul_zero, zero_mul]
  simp [Init]

theorem Init_Evaluate (kernel_ : Kernel) (ds : Dataset) (c : ℚ) (i : ℕ) :
    Evaluate_ (Init kernel_ ds c) i = 0 := by
  have hfold : ∀ (l : List ℕ) (f : ℚ → ℕ → ℚ), (∀ a k, f a k = a) → l.foldl f 0 = 0 := by
    intro l f hf
    induction l with
    | nil => rfl
    | cons k l ih => rw [List.foldl_cons, hf]; exact ih
  simp only [Evaluate_]
  rw [hfold _ _ (fun a k => by simp only [Init_alpha_getD, ne_eq, not_true_eq_false, if_false])]
  simp [Init]

theorem Init_Error (kernel_ : Kernel) (ds : Dataset) (c : ℚ) (i : ℕ) :
    Error_ (Init kernel_ ds c) i = -GetLabelSign_ (Init kernel_ ds c) i := by
  simp only [Error_, IsBound_, Init_alpha_getD, Init_Evaluate]
  simp

theorem pairInit_label0 : GetLabelSign_ (Init LinearKernel pairData 1) 0 = 1 := by
  norm_num [GetLabelSign_, Init, pairData, Matrix.get]

theorem pairInit_label1 : GetLabelSign_ (Init LinearKernel pairData 1) 1 = -1 := by
  norm_num [GetLabelSign_, Init, pairData, Matrix.get]

/-- C4, evaluated on `pairData` (one example per class) with the linear kernel
and `C = 1`: `Init` followed by `Train` returns, and in the state it leaves
both indices have `r_j = Error_(j) * y_j = -1 < -1e-4` with `alpha_j = 0 < C`,
so both violate the optimality predicate. -/
theorem Train_leaves_violations (rnd : ℕ → ℕ) (fuel p : ℕ) :
    ∃ st p1 log, Train rnd (fuel + 1) p (Init LinearKernel pairData 1) = some (st, p1, log)
      ∧ (Error_ st 0 * GetLabelSign_ st 0 < -SMO_TOLERANCE ∧ st.alpha_.getD 0 0 < st.c_)
      ∧ (Error_ st 1 * GetLabelSign_ st 1 < -SMO_TOLERANCE ∧ st.alpha_.getD 1 0 < st.c_) := by
  obtain ⟨p1, h⟩ := Train_stuck rnd fuel p _ (Init_stuck LinearKernel pairData 1 (by norm_num))
  refine ⟨_, p1, _, h, ?_, ?_⟩
  · rw [Init_Error, Init_alpha_getD, pairInit_label0]
    norm_num [SMO_TOLERANCE, Init]
  · rw [Init_Error, Init_alpha_getD, pairInit_label1]
    norm_num [SMO_TOLERANCE, Init]

/-! ## The decision function -/

/-- C5, evaluated on `midState` at index `0`: `Evaluate_` weights every term of
the sum with the label sign of the evaluated example `0` and returns `0`, while
the sum with the label sign of each summed example gives `1`. -/
theorem Evaluate_uses_label_of_evaluated :
    GetLabelSign_ midState 0 = 1 ∧ GetLabelSign_ midState 1 = -1
      ∧ Evaluate_ midState 0 = 0 ∧ decisionValue midState 0 = 1 := by
  have h2 : List.range 2 = [0, 1] := rfl
  have hn : midState.matrix_.n_cols = 2 := rfl
  have hk : ∀ a b, midState.kernel_ a b = LinearKernel a b := fun _ _ => rfl
  refine ⟨midState_label0, midState_label1, ?_, ?_⟩
  · simp only [Evaluate_, hn, h2, List.foldl, midState_label0, midState_vec0, midState_vec1, hk]
    norm_num [midState, LinearKernel]
  · simp only [decisionValue, hn, h2, List.map, midState_label0, midState_label1,
      midState_vec0, midState_vec1, hk]
    norm_num [midState, LinearKernel]

/-! ## Model extraction -/

/-- C6, evaluated on `midState`, which has two non-zero multipliers: `GetSVM`
allocates two slots, stores both support vectors into slot `0`, so that slot
`0` ends with the data of index `1`, and never stores into slot `1`. -/
theorem GetSVM_fills_first_slot_only :
    midState.alpha_ = [1/2, 1/2]
      ∧ GetVector_ midState 0 = [1] ∧ GetVector_ midState 1 = [-1]
      ∧ GetLabelSign_ midState 0 = 1 ∧ GetLabelSign_ midState 1 = -1
      ∧ GetSVM midState
        = { support_vectors := [some [-1], none], support_alpha := [some (-(1/2)), none] } := by
  have h2 : List.range 2 = [0, 1] := rfl
  refine ⟨rfl, midState_vec0, midState_vec1, midState_label0, midState_label1, ?_⟩
  simp only [GetSVM, show midState.alpha_.length = 2 from rfl, h2, List.foldl,
    midState_label0, midState_label1, midState_vec0, midState_vec1]
  norm_num [midState, List.replicate]

/-! ## The scenarios of the specification -/

/-- C7, evaluated on scenario B (`pairData`, linear kernel, `C = 1`): every
`TakeStep_` call in the state left by `Init` returns `false`, and `Init`
followed by `Train` runs one full sweep with zero successful updates and
returns the state left by `Init`; no pairwise step succeeds, where the claim
asks for exactly one. -/
theorem scenarioB_no_successful_step (rnd : ℕ → ℕ) (fuel p : ℕ) :
    (∀ i j error_j, (TakeStep_ (Init LinearKernel pairData 1) i j error_j).1 = false)
      ∧ ∃ p1, Train rnd (fuel + 1) p (Init LinearKernel pairData 1)
          = some (Init LinearKernel pairData 1, p1, [(true, 0)]) := by
  have hs := Init_stuck LinearKernel pairData 1 (by norm_num)
  exact ⟨fun i j e => by rw [hs i j e], Train_stuck rnd fuel p _ hs⟩

/-- C8, evaluated on scenario A (`squareData`, linear kernel, `C = 1`): `Init`
followed by `Train` returns with the state left by `Init`, in which the
decision value of every point is `0`, so that no training point has a decision
value of the strict sign of its label. -/
theorem scenarioA_decision_values_zero (rnd : ℕ → ℕ) (fuel p : ℕ) :
    ∃ st p1 log, Train rnd (fuel + 1) p (Init LinearKernel squareData 1) = some (st, p1, log)
      ∧ st.thresh_ = 0
      ∧ (∀ i, decisionValue st i = 0)
      ∧ (∀ i, ¬ 0 < decisionValue st i * GetLabelSign_ st i) := by
  obtain ⟨p1, h⟩ := Train_stuck rnd fuel p _ (Init_stuck LinearKernel squareData 1 (by norm_num))
  refine ⟨_, p1, _, h, rfl, Init_decisionValue _ _ _, fun i => ?_⟩
  rw [Init_decisionValue]
  simp

/-! ## Construction -/

/-- C9, counterexample: `Init` does not fail on a dataset without examples and
`C = 0`, nor on a dataset of a single class with `C = 1`; in both cases `Train`
then enters its loop and runs one sweep. -/
theorem Init_accepts_invalid_configuration :
    (emptyData.matrix.n_cols = 0
        ∧ (¬ ∃ e, InitOutcome LinearKernel emptyData 0 = Except.error e)
        ∧ ∀ rnd p, Train rnd 1 p (Init LinearKernel emptyData 0)
            = some (Init LinearKernel emptyData 0, p, [(true, 0)]))
      ∧ (GetLabelSign_ (Init LinearKernel oneClassData 1) 0
            = GetLabelSign_ (Init LinearKernel oneClassData 1) 1
        ∧ (¬ ∃ e, InitOutcome LinearKernel oneClassData 1 = Except.error e)
        ∧ ∀ rnd p, ∃ p1, Train rnd 1 p (Init LinearKernel oneClassData 1)
            = some (Init LinearKernel oneClassData 1, p1, [(true, 0)])) := by
  refine ⟨⟨rfl, ?_, ?_⟩, ⟨?_, ?_, ?_⟩⟩
  · rintro ⟨e, he⟩
    simp [InitOutcome] at he
  · intro rnd p
    rfl
  · norm_num [GetLabelSign_, Init, oneClassData, Matrix.get]
  · rintro ⟨e, he⟩
    simp [InitOutcome] at he
  · intro rnd p
    exact Train_stuck rnd 0 p _ (Init_stuck LinearKernel oneClassData 1 (by norm_num))

/-- C9, amended: `Init` has no failing path; for every kernel, every dataset
(also one without examples or of a single class) and every `C` (also
`C <= 0`) it succeeds, and the state it leaves has one multiplier and one
cached error per example, all zero, the threshold zero and `c_` equal to `C`. -/
theorem Init_always_succeeds (kernel_ : Kernel) (ds : Dataset) (c : ℚ) :
    ∃ st, InitOutcome kernel_ ds c = Except.ok st
      ∧ st.alpha_ = List.replicate ds.matrix.n_cols 0
      ∧ st.error_ = List.replicate ds.matrix.n_cols 0
      ∧ st.thresh_ = 0
      ∧ st.c_ = c
      ∧ st.matrix_ = ds.matrix :=
  ⟨Init kernel_ ds c, rfl, rfl, rfl, rfl, rfl, rfl⟩

/-! ## Rejected steps -/

/-- C10: if `TakeStep_(i, j, error_j)` returns `false` the whole solver state,
so `alpha_`, `error_` and `thresh_`, is as before the call; and it returns
`false` when `i == j`, when the computed bounds satisfy `l == u`, and when the
snapped new `alpha_j` differs from the old one by less than
`1e-4 * (new alpha_j + old alpha_j + 1e-4)`. -/
theorem TakeStep_rejected_noop (st : SMO) (i j : ℕ) (error_j : ℚ) :
    ((TakeStep_ st i j error_j).1 = false → (TakeStep_ st i j error_j).2 = st)
      ∧ (i = j → (TakeStep_ st i j error_j).1 = false)
      ∧ (TakeStep_l st i j = TakeStep_u st i j → (TakeStep_ st i j error_j).1 = false)
      ∧ (|TakeStep_alpha_j st i j error_j - st.alpha_.getD j 0|
            < SMO_EPS * (TakeStep_alpha_j st i j error_j + st.alpha_.getD j 0 + SMO_EPS) →
          (TakeStep_ st i j error_j).1 = false) := by
  refine ⟨TakeStep_false_state st i j error_j, ?_, ?_, ?_⟩
  · intro h
    rw [TakeStep_unfold, if_pos h]
  · intro h
    rw [TakeStep_unfold]
    split_ifs <;> rfl
  · intro h
    rw [TakeStep_unfold]
    split_ifs <;> rfl

theorem midState_alpha_j_zero : TakeStep_alpha_j midState 0 1 0 = 1/2 := by
  have heta : TakeStep_eta midState 0 1 = -4 := by
    norm_num [TakeStep_eta, midState_k00, midState_k01, midState_k11]
  have hraw : TakeStep_alpha_j_raw midState 0 1 0 = 1/2 := by
    simp only [TakeStep_alpha_j_raw, heta, midState_l, midState_u, midState_label0,
      midState_error0]
    norm_num [ClampRange, midState]
  rw [TakeStep_alpha_j, hraw]
  norm_num [FixAlpha_, SMO_ZERO, midState]

theorem midState_small_step :
    |TakeStep_alpha_j midState 0 1 0 - midState.alpha_.getD 1 0|
      < SMO_EPS * (TakeStep_alpha_j midState 0 1 0 + midState.alpha_.getD 1 0 + SMO_EPS) := by
  have hα : midState.alpha_.getD 1 0 = 1/2 := by simp [midState]
  rw [midState_alpha_j_zero, hα]
  norm_num [SMO_EPS]

theorem pairInit_bounds :
    TakeStep_l (Init LinearKernel pairData 1) 0 1 = TakeStep_u (Init LinearKernel pairData 1) 0 1 := by
  simp only [TakeStep_l, TakeStep_u, ClampNonNegative, ClampNonPositive,
    TakeStep_r_zero _ (Init_alpha_getD LinearKernel pairData 1)]
  norm_num [Init]

/-- Witness of C10: the three rejections on concrete calls, `i == j` on
`midState`, `l == u` on the state left by `Init` over `pairData`, and a step of
size zero on `midState` with `error_j = 0`; each leaves the state as it was. -/
theorem TakeStep_rejected_noop_witness :
    ((TakeStep_ midState 0 0 1).1 = false ∧ (TakeStep_ midState 0 0 1).2 = midState)
      ∧ (TakeStep_l (Init LinearKernel pairData 1) 0 1
            = TakeStep_u (Init LinearKernel pairData 1) 0 1
          ∧ (TakeStep_ (Init LinearKernel pairData 1) 0 1 1).1 = false
          ∧ (TakeStep_ (Init LinearKernel pairData 1) 0 1 1).2 = Init LinearKernel pairData 1)
      ∧ (|TakeStep_alpha_j midState 0 1 0 - midState.alpha_.getD 1 0|
            < SMO_EPS * (TakeStep_alpha_j midState 0 1 0 + midState.alpha_.getD 1 0 + SMO_EPS)
          ∧ (TakeStep_ midState 0 1 0).1 = false
          ∧ (TakeStep_ midState 0 1 0).2 = midState) :=
  ⟨⟨(TakeStep_rejected_noop midState 0 0 1).2.1 rfl,
      (TakeStep_rejected_noop midState 0 0 1).1
        ((TakeStep_rejected_noop midState 0 0 1).2.1 rfl)⟩,
    ⟨pairInit_bounds,
      (TakeStep_rejected_noop _ 0 1 1).2.2.1 pairInit_bounds,
      (TakeStep_rejected_noop _ 0 1 1).1
        ((TakeStep_rejected_noop _ 0 1 1).2.2.1 pairInit_bounds)⟩,
    ⟨midState_small_step,
      (TakeStep_rejected_noop midState 0 1 0).2.2.2 midState_small_step,
      (TakeStep_rejected_noop midState 0 1 0).1
        ((TakeStep_rejected_noop midState 0 1 0).2.2.2 midState_small_step)⟩⟩

/-! ## The error cache after a step -/

theorem midState_thresh_new : TakeStep_thresh_new midState 0 1 1 = 1/2 := by
  have hi : TakeStep_thresh_i midState 0 1 1 = 1/2 := by
    simp only [TakeStep_thresh_i, midState_alpha_i, midState_alpha_j, midState_label0,
      midState_error0, midState_k00, midState_k01]
    norm_num [midState]
  simp only [TakeStep_thresh_new, midState_alpha_i, hi]
  norm_num [IsBound_, midState]

theorem midState_error_after : TakeStep_error midState 0 1 1 = [0, -1] := by
  have h2 : List.range 2 = [0, 1] := rfl
  have hb1 : IsBound_ midState (3/4) = false := by norm_num [IsBound_, midState]
  have hb2 : IsBound_ midState (1/4) = false := by norm_num [IsBound_, midState]
  have he : midState.error_ = [0, 1] := rfl
  simp only [TakeStep_error, midState_alpha_i, midState_alpha_j, midState_label0,
    midState_thresh_new, hb1, hb2, he, Bool.not_false, if_true, List.set, List.length_cons,
    List.length_nil, h2, List.foldl, midState_k01, midState_k11, midState_k00]
  norm_num [midState]

/-- C11, evaluated on `midState` with the pair `(0, 1)` and `error_j = 1`: the
step is taken and leaves `alpha_ = (3/4, 1/4)`, both strictly inside `(0, C)`;
`error_[0]` is `0` on return, but `error_[1]` is `-1`, because the loop of
lines 365-369 skips only `k == i` and adds its increment to the entry of `j`
after line 355 has reset it. -/
theorem TakeStep_error_j_not_zero :
    (TakeStep_ midState 0 1 1).1 = true
      ∧ (TakeStep_ midState 0 1 1).2.alpha_ = [3/4, 1/4]
      ∧ (TakeStep_ midState 0 1 1).2.c_ = 1
      ∧ (TakeStep_ midState 0 1 1).2.error_ = [0, -1] := by
  refine ⟨midState_step.1, midState_step.2, ?_, ?_⟩
  · rw [TakeStep_c]; rfl
  · have hα : midState.alpha_.getD 1 0 = 1/2 := by simp [midState]
    have hcond : ¬ (|(1/4 : ℚ) - 1/2| < SMO_EPS * (1/4 + 1/2 + SMO_EPS)) := by
      rw [abs_of_neg (by norm_num)]
      norm_num [SMO_EPS]
    rw [TakeStep_unfold]
    simp only [midState_l, midState_u, midState_alpha_j, hα]
    rw [if_neg (by norm_num), if_neg (by norm_num), if_neg hcond]
    exact midState_error_after

/-! ### Evaluation of the pairwise step on `quarterState` -/

theorem LinearKernel_symm (a b : List ℚ) : LinearKernel a b = LinearKernel b a := by
  unfold LinearKernel
  rw [List.zipWith_comm_of_comm _ (fun x y => mul_comm x y)]

theorem quarterState_label0 : GetLabelSign_ quarterState 0 = 1 := by
  norm_num [GetLabelSign_, quarterState, pairData, Matrix.get]

theorem quarterState_label1 : GetLabelSign_ quarterState 1 = -1 := by
  norm_num [GetLabelSign_, quarterState, pairData, Matrix.get]

theorem quarterState_vec0 : GetVector_ quarterState 0 = [1] := by
  simp [GetVector_, quarterState, pairData, Matrix.MakeColumnSubvector]

theorem quarterState_vec1 : GetVector_ quarterState 1 = [-1] := by
  simp [GetVector_, quarterState, pairData, Matrix.MakeColumnSubvector]

theorem quarterState_k00 : EvalKernel_ quarterState 0 0 = 1 := by
  rw [EvalKernel_, quarterState_vec0]; norm_num [quarterState, LinearKernel]

theorem quarterState_k01 : EvalKernel_ quarterState 0 1 = -1 := by
  rw [EvalKernel_, quarterState_vec0, quarterState_vec1]; norm_num [quarterState, LinearKernel]

theorem quarterState_k11 : EvalKernel_ quarterState 1 1 = 1 := by
  rw [EvalKernel_, quarterState_vec1]; norm_num [quarterState, LinearKernel]

theorem quarterState_error0 : Error_ quarterState 0 = -(1/2) := by
  norm_num [Error_, IsBound_, quarterState]

theorem quarterState_error1 : Error_ quarterState 1 = 1/2 := by
  norm_num [Error_, IsBound_, quarterState]

theorem quarterState_r : TakeStep_r quarterState 0 1 = -(1/2) := by
  simp only [TakeStep_r, quarterState_label0]
  norm_num [quarterState]

theorem quarterState_l : TakeStep_l quarterState 0 1 = 0 := by
  rw [TakeStep_l, quarterState_r]
  norm_num [ClampNonNegative]

theorem quarterState_u : TakeStep_u quarterState 0 1 = 1/2 := by
  rw [TakeStep_u, quarterState_r]
  norm_num [ClampNonPositive, quarterState]

theorem quarterState_alpha_j : TakeStep_alpha_j quarterState 0 1 (1/2) = 0 := by
  have heta : TakeStep_eta quarterState 0 1 = -4 := by
    norm_num [TakeStep_eta, quarterState_k00, quarterState_k01, quarterState_k11]
  have hraw : TakeStep_alpha_j_raw quarterState 0 1 (1/2) = 0 := by
    simp only [TakeStep_alpha_j_raw, heta, quarterState_l, quarterState_u, quarterState_label0,
      quarterState_error0]
    norm_num [ClampRange, quarterState]
  rw [TakeStep_alpha_j, hraw]
  norm_num [FixAlpha_, SMO_ZERO]

theorem quarterState_alpha_i : TakeStep_alpha_i quarterState 0 1 (1/2) = 1/2 := by
  simp only [TakeStep_alpha_i, quarterState_alpha_j, quarterState_label0]
  norm_num [FixAlpha_, SMO_ZERO, quarterState]

theorem quarterState_thresh_new : TakeStep_thresh_new quarterState 0 1 (1/2) = 0 := by
  have hi : TakeStep_thresh_i quarterState 0 1 (1/2) = 0 := by
    simp only [TakeStep_thresh_i, quarterState_alpha_i, quarterState_alpha_j,
      quarterState_label0, quarterState_error0, quarterState_k00, quarterState_k01]
    norm_num [quarterState]
  simp only [TakeStep_thresh_new, quarterState_alpha_i, hi]
  norm_num [IsBound_, quarterState]

theorem quarterState_error_after : TakeStep_error quarterState 0 1 (1/2) = [0, 0] := by
  have h2 : List.range 2 = [0, 1] := rfl
  have hb1 : IsBound_ quarterState (1/2) = false := by norm_num [IsBound_, quarterState]
  have hb2 : IsBound_ quarterState 0 = true := by norm_num [IsBound_, quarterState]
  have he : quarterState.error_ = [-(1/2), 1/2] := rfl
  simp only [TakeStep_error, quarterState_alpha_i, quarterState_alpha_j, quarterState_label0,
    quarterState_thresh_new, hb1, hb2, he, Bool.not_false, Bool.not_true, if_true,
    Bool.false_eq_true, if_false, List.set, List.length_cons,
    List.length_nil, h2, List.foldl, quarterState_k01, quarterState_k11, quarterState_k00]
  norm_num [quarterState]

theorem quarterState_step :
    TakeStep_ quarterState 0 1 (1/2)
      = (true, { quarterState with alpha_ := [1/2, 0], error_ := [0, 0], thresh_ := 0 }) := by
  have hα : quarterState.alpha_.getD 1 0 = 1/4 := by simp [quarterState]
  have hcond : ¬ (|(0 : ℚ) - 1/4| < SMO_EPS * (0 + 1/4 + SMO_EPS)) := by
    rw [abs_of_neg (by norm_num)]
    norm_num [SMO_EPS]
  rw [TakeStep_unfold]
  simp only [quarterState_l, quarterState_u, quarterState_alpha_j, quarterState_alpha_i, hα,
    quarterState_error_after, quarterState_thresh_new]
  rw [if_neg (by norm_num), if_neg (by norm_num), if_neg hcond]
  simp [quarterState]

theorem quarterState_inBox : InBox quarterState := by
  intro k hk
  have hk2 : k < 2 := by simpa [quarterState] using hk
  interval_cases k <;> norm_num [quarterState]

theorem quarterState_decision0 : decisionValue quarterState 0 = 1/2 := by
  have h2 : List.range 2 = [0, 1] := rfl
  have hn : quarterState.matrix_.n_cols = 2 := rfl
  have hk : ∀ a b, quarterState.kernel_ a b = LinearKernel a b := fun _ _ => rfl
  simp only [decisionValue, hn, h2, List.map, quarterState_label0, quarterState_label1,
    quarterState_vec0, quarterState_vec1, hk]
  norm_num [quarterState, LinearKernel]

theorem quarterState_decision1 : decisionValue quarterState 1 = -(1/2) := by
  have h2 : List.range 2 = [0, 1] := rfl
  have hn : quarterState.matrix_.n_cols = 2 := rfl
  have hk : ∀ a b, quarterState.kernel_ a b = LinearKernel a b := fun _ _ => rfl
  simp only [decisionValue, hn, h2, List.map, quarterState_label0, quarterState_label1,
    quarterState_vec0, quarterState_vec1, hk]
  norm_num [quarterState, LinearKernel]

theorem quarterState_consistent : CacheConsistent quarterState := by
  intro k hk _
  have hk2 : k < 2 := by simpa [quarterState] using hk
  interval_cases k
  · rw [quarterState_decision0, quarterState_label0]
    norm_num [quarterState, SMO_EPS]
  · rw [quarterState_decision1, quarterState_label1]
    norm_num [quarterState, SMO_EPS]

/-- C12, evaluated on `quarterState` (two examples of opposite labels, linear
kernel, `C = 1`, every multiplier inside the box, the cache of both non-bound
indices equal to the recomputed `D(k) - y_k`): the step on the pair `(0, 1)`
with `Error_(1)` is taken and leaves `alpha_ = (1/2, 0)`, `error_ = (0, 0)`,
`thresh_ = 0`; index `0` is then non-bound with `D(0) - y_0 = -1/2` but a
cached error of `0`, so the cache is no longer consistent. -/
theorem TakeStep_breaks_cache_consistency :
    (∀ a b, quarterState.kernel_ a b = quarterState.kernel_ b a)
      ∧ InBox quarterState
      ∧ GetLabelSign_ quarterState 0 = 1 ∧ GetLabelSign_ quarterState 1 = -1
      ∧ CacheConsistent quarterState
      ∧ (TakeStep_ quarterState 0 1 (Error_ quarterState 1)).1 = true
      ∧ (TakeStep_ quarterState 0 1 (Error_ quarterState 1)).2.alpha_ = [1/2, 0]
      ∧ (TakeStep_ quarterState 0 1 (Error_ quarterState 1)).2.error_ = [0, 0]
      ∧ decisionValue (TakeStep_ quarterState 0 1 (Error_ quarterState 1)).2 0
          - GetLabelSign_ (TakeStep_ quarterState 0 1 (Error_ quarterState 1)).2 0 = -(1/2)
      ∧ ¬ CacheConsistent (TakeStep_ quarterState 0 1 (Error_ quarterState 1)).2 := by
  have h2 : List.range 2 = [0, 1] := rfl
  have hlab0 : GetLabelSign_
      { quarterState with alpha_ := [1/2, 0], error_ := [0, 0], thresh_ := 0 } 0 = 1 :=
    quarterState_label0
  have hdec : decisionValue
      { quarterState with alpha_ := [1/2, 0], error_ := [0, 0], thresh_ := 0 } 0 = 1/2 := by
    have hl1 : GetLabelSign_
        { quarterState with alpha_ := [1/2, 0], error_ := [0, 0], thresh_ := 0 } 1 = -1 :=
      quarterState_label1
    have hv0 : GetVector_
        { quarterState with alpha_ := [1/2, 0], error_ := [0, 0], thresh_ := 0 } 0 = [1] :=
      quarterState_vec0
    have hv1 : GetVector_
        { quarterState with alpha_ := [1/2, 0], error_ := [0, 0], thresh_ := 0 } 1 = [-1] :=
      quarterState_vec1
    simp only [decisionValue, show quarterState.matrix_.n_cols = 2 from rfl, h2, List.map,
      hlab0, hl1, hv0, hv1]
    norm_num [quarterState, LinearKernel]
  rw [quarterState_error1, quarterState_step]
  refine ⟨fun a b => LinearKernel_symm a b, quarterState_inBox, quarterState_label0,
    quarterState_label1, quarterState_consistent, rfl, rfl, rfl, ?_, ?_⟩
  · simp only [hdec, hlab0]
    norm_num
  · intro hcons
    have h := hcons 0 (by simp) (by norm_num [IsBound_, quarterState])
    simp only [hdec, hlab0] at h
    norm_num [SMO_EPS] at h
    rw [abs_of_pos (by norm_num)] at h
    norm_num at h

/-! ## The active-set sweep -/

/-- C13, evaluated on `midState`, whose two multipliers are both non-bound:
`TrainIteration_(examine_all = false)` calls `TryChange_` on neither index and
returns `0` with the state untouched, although `TryChange_(1)` succeeds in that
state; line 188 tests `IsBound_(alpha_[i])`, so the sweep visits the bound
indices and skips the non-bound ones. -/
theorem TrainIteration_skips_non_bound (rnd : ℕ → ℕ) (p : ℕ) :
    IsBound_ midState (midState.alpha_.getD 0 0) = false
      ∧ IsBound_ midState (midState.alpha_.getD 1 0) = false
      ∧ TryChange_ rnd p midState 1 = some (true, (TakeStep_ midState 0 1 1).2, p)
      ∧ TrainIteration_ rnd p midState false = some (midState, p, 0) := by
  have hb0 : IsBound_ midState (midState.alpha_.getD 0 0) = false := by
    norm_num [IsBound_, midState]
  have hb1 : IsBound_ midState (midState.alpha_.getD 1 0) = false := by
    norm_num [IsBound_, midState]
  have h2 : List.range 2 = [0, 1] := rfl
  refine ⟨hb0, hb1, midState_TryChange1 rnd p, ?_⟩
  simp only [TrainIteration_, show midState.alpha_.length = 2 from rfl, h2, sweep, hb0, hb1,
    Bool.or_self, Bool.false_eq_true, if_false]

/-! ## The bounds of the two-variable problem -/

/-- C14, evaluated on `quarterState` with the pair `(0, 1)`, of opposite
labels: `TakeStep_` computes `l = 0` and `u = 1/2`, the bounds of the
equal-label case, while the bounds of the opposite-label case are
`max(0, alpha_j - alpha_i) = 0` and `C + min(0, alpha_j - alpha_i) = 1`. -/
theorem TakeStep_bounds_ignore_label_j :
    GetLabelSign_ quarterState 0 = 1 ∧ GetLabelSign_ quarterState 1 = -1
      ∧ InBox quarterState
      ∧ TakeStep_l quarterState 0 1 = 0
      ∧ TakeStep_u quarterState 0 1 = 1/2
      ∧ max 0 (quarterState.alpha_.getD 1 0 - quarterState.alpha_.getD 0 0) = 0
      ∧ quarterState.c_
          + min 0 (quarterState.alpha_.getD 1 0 - quarterState.alpha_.getD 0 0) = 1
      ∧ min quarterState.c_
          (quarterState.alpha_.getD 0 0 + quarterState.alpha_.getD 1 0) = 1/2 := by
  refine ⟨quarterState_label0, quarterState_label1, quarterState_inBox, quarterState_l,
    quarterState_u, ?_, ?_, ?_⟩ <;> norm_num [quarterState]

/-! ### Counting the calls of `TakeStep_` -/

theorem scanLoopCount_erase (nb : Bool) (j : ℕ) (error_j : ℚ) (start : ℕ) :
    ∀ (fuel i : ℕ) (st : SMO),
      (scanLoopCount nb j error_j start fuel i st).map (fun r => (r.1, r.2.1))
        = scanLoop nb j error_j start fuel i st := by
  intro fuel
  induction fuel with
  | zero => intro i st; rfl
  | succ fuel ih =>
    intro i st
    rw [scanLoopCount, scanLoop]
    generalize (if (nb && IsBound_ st (st.alpha_.getD i 0)) = true then (false, st)
      else TakeStep_ st i j error_j) = r
    by_cases hb : r.1 = true
    · simp [hb]
    · have hb2 : r.1 = false := by simpa using hb
      simp only [hb2, Bool.false_eq_true, if_false]
      by_cases hne : (i + 1) % r.2.alpha_.length ≠ start
      · rw [if_pos hne, if_pos hne, ← ih]
        cases scanLoopCount nb j error_j start fuel ((i + 1) % r.2.alpha_.length) r.2 with
        | none => rfl
        | some x => rfl
      · rw [if_neg hne, if_neg hne]
        rfl

theorem scanLoopCount_bound (nb : Bool) (j : ℕ) (error_j : ℚ) (start : ℕ) :
    ∀ (fuel i : ℕ) (st : SMO) (b : Bool) (st1 : SMO) (n : ℕ),
      scanLoopCount nb j error_j start fuel i st = some (b, st1, n) →
        n ≤ fuel ∧ st1.alpha_.length = st.alpha_.length := by
  intro fuel
  induction fuel with
  | zero => intro i st b st1 n h; simp [scanLoopCount] at h
  | succ fuel ih =>
    intro i st b st1 n h
    rw [scanLoopCount] at h
    have hcalls : (if (nb && IsBound_ st (st.alpha_.getD i 0)) = true then 0 else 1) ≤ 1 := by
      split_ifs <;> omega
    generalize (if (nb && IsBound_ st (st.alpha_.getD i 0)) = true then 0 else 1) = calls
      at h hcalls
    have hlen : (if (nb && IsBound_ st (st.alpha_.getD i 0)) = true then (false, st)
        else TakeStep_ st i j error_j).2.alpha_.length = st.alpha_.length := by
      split_ifs
      · rfl
      · exact TakeStep_alpha_length _ _ _ _
    generalize (if (nb && IsBound_ st (st.alpha_.getD i 0)) = true then (false, st)
      else TakeStep_ st i j error_j) = r at h hlen
    by_cases hb : r.1 = true
    · simp only [hb, if_true, Option.some.injEq, Prod.mk.injEq] at h
      obtain ⟨_, h2, h3⟩ := h
      subst h2 h3
      exact ⟨by omega, hlen⟩
    · have hb2 : r.1 = false := by simpa using hb
      simp only [hb2, Bool.false_eq_true, if_false] at h
      by_cases hne : (i + 1) % r.2.alpha_.length ≠ start
      · rw [if_pos hne] at h
        cases hrec : scanLoopCount nb j error_j start fuel ((i + 1) % r.2.alpha_.length) r.2 with
        | none => rw [hrec] at h; cases h
        | some x =>
          obtain ⟨b2, s2, n2⟩ := x
          rw [hrec] at h
          simp only [Option.some.injEq, Prod.mk.injEq] at h
          obtain ⟨_, h2, h3⟩ := h
          subst h2 h3
          obtain ⟨hn2, hl2⟩ := ih _ _ _ _ _ hrec
          exact ⟨by omega, by omega⟩
      · rw [if_neg hne] at h
        simp only [Option.some.injEq, Prod.mk.injEq] at h
        obtain ⟨_, h2, h3⟩ := h
        subst h2 h3
        exact ⟨by omega, hlen⟩

theorem greedyCalls_le (st : SMO) (error_j : ℚ) : greedyCalls st error_j ≤ 1 := by
  unfold greedyCalls
  split_ifs
  · cases greedyLow st error_j <;> simp
  · cases greedyHigh st error_j <;> simp
  · omega

theorem TryChangeCounted_erase (rnd : ℕ → ℕ) (p : ℕ) (st : SMO) (j : ℕ) :
    (TryChangeCounted rnd p st j).map (fun r => (r.1, r.2.1, r.2.2.1))
      = TryChange_ rnd p st j := by
  unfold TryChangeCounted TryChange_
  by_cases hk : KKTViolates st j = true
  · simp only [hk, Bool.not_true, Bool.false_eq_true, if_false]
    by_cases hg : (greedyAttempt st j (Error_ st j)).1 = true
    · simp only [hg, if_true]
      rfl
    · have hg2 : (greedyAttempt st j (Error_ st j)).1 = false := by simpa using hg
      simp only [hg2, Bool.false_eq_true, if_false]
      generalize (greedyAttempt st j (Error_ st j)).2 = st1
      rw [← scanLoopCount_erase true]
      cases scanLoopCount true j (Error_ st j) (rnd p % st1.alpha_.length) st1.alpha_.length
          (rnd p % st1.alpha_.length) st1 with
      | none => rfl
      | some x =>
        obtain ⟨b1, st2, n1⟩ := x
        cases b1 with
        | true => rfl
        | false =>
          simp only [Option.map_some']
          rw [← scanLoopCount_erase false]
          cases scanLoopCount false j (Error_ st j) (rnd (p + 1) % st2.alpha_.length)
              st2.alpha_.length (rnd (p + 1) % st2.alpha_.length) st2 with
          | none => rfl
          | some y => rfl
  · have hk2 : KKTViolates st j = false := by simpa using hk
    simp only [hk2, Bool.not_false, if_true]
    rfl

theorem TryChangeCounted_bound (rnd : ℕ → ℕ) (p : ℕ) (st : SMO) (j : ℕ)
    (b : Bool) (st1 : SMO) (p1 n : ℕ)
    (h : TryChangeCounted rnd p st j = some (b, st1, p1, n)) :
    n ≤ 1 + 2 * st.alpha_.length := by
  unfold TryChangeCounted at h
  by_cases hk : KKTViolates st j = true
  · simp only [hk, Bool.not_true, Bool.false_eq_true, if_false] at h
    have hc := greedyCalls_le st (Error_ st j)
    have hgl := (greedyAttempt_state st j (Error_ st j)).1
    by_cases hg : (greedyAttempt st j (Error_ st j)).1 = true
    · simp only [hg, if_true, Option.some.injEq, Prod.mk.injEq] at h
      omega
    · have hg2 : (greedyAttempt st j (Error_ st j)).1 = false := by simpa using hg
      simp only [hg2, Bool.false_eq_true, if_false] at h
      generalize (greedyAttempt st j (Error_ st j)).2 = sg at h hgl
      cases h1 : scanLoopCount true j (Error_ st j) (rnd p % sg.alpha_.length) sg.alpha_.length
          (rnd p % sg.alpha_.length) sg with
      | none => rw [h1] at h; cases h
      | some x =>
        obtain ⟨b1, st2, n1⟩ := x
        rw [h1] at h
        obtain ⟨hn1, hl1⟩ := scanLoopCount_bound _ _ _ _ _ _ _ _ _ _ h1
        cases b1 with
        | true =>
          simp only [Option.some.injEq, Prod.mk.injEq] at h
          omega
        | false =>
          simp only at h
          cases h2 : scanLoopCount false j (Error_ st j) (rnd (p + 1) % st2.alpha_.length)
              st2.alpha_.length (rnd (p + 1) % st2.alpha_.length) st2 with
          | none => rw [h2] at h; cases h
          | some y =>
            obtain ⟨b2, st3, n2⟩ := y
            rw [h2] at h
            obtain ⟨hn2, _⟩ := scanLoopCount_bound _ _ _ _ _ _ _ _ _ _ h2
            simp only [Option.some.injEq, Prod.mk.injEq] at h
            omega
  · have hk2 : KKTViolates st j = false := by simpa using hk
    simp only [hk2, Bool.not_false, if_true, Option.some.injEq, Prod.mk.injEq] at h
    omega

theorem TryChangeCounted_returns (rnd : ℕ → ℕ) (p : ℕ) (st : SMO) (j : ℕ)
    (hn : 0 < st.alpha_.length) :
    ∃ b st1 p1 n, TryChangeCounted rnd p st j = some (b, st1, p1, n)
      ∧ TryChange_ rnd p st j = some (b, st1, p1) := by
  obtain ⟨b, st1, p1, h, _, _⟩ := TryChange_returns rnd p st j hn
  have he := TryChangeCounted_erase rnd p st j
  rw [h] at he
  cases hc : TryChangeCounted rnd p st j with
  | none => rw [hc] at he; cases he
  | some x =>
    obtain ⟨b2, s2, p2, n2⟩ := x
    rw [hc] at he
    simp only [Option.map_some', Option.some.injEq, Prod.mk.injEq] at he
    obtain ⟨h1, h2, h3⟩ := he
    subst h1 h2 h3
    exact ⟨b2, s2, p2, n2, rfl, h⟩

/-! ## The optimality gate of `TryChange_` -/

theorem KKTViolates_iff (st : SMO) (j : ℕ) :
    KKTViolates st j = true ↔
      ((Error_ st j * GetLabelSign_ st j < -SMO_TOLERANCE ∧ st.alpha_.getD j 0 < st.c_)
        ∨ (Error_ st j * GetLabelSign_ st j > SMO_TOLERANCE ∧ st.alpha_.getD j 0 > 0)) := by
  simp only [KKTViolates, Bool.or_eq_true, Bool.and_eq_true, decide_eq_true_eq]

/-- C15: for every state and every index `j` of an example, with
`r_j = Error_(j) * y_j`: when `j` does not satisfy
`(r_j < -1e-4 and alpha_j < C) or (r_j > 1e-4 and alpha_j > 0)`, `TryChange_(j)`
returns `false` after zero calls of `TakeStep_`, drawing no random value and
leaving the state as it was; `TryChange_(j)` always returns; it returns `true`
only when `j` satisfies the predicate; and whenever it returns `false` the
state is as before. -/
theorem TryChange_gate (rnd : ℕ → ℕ) (p : ℕ) (st : SMO) (j : ℕ)
    (hj : j < st.alpha_.length) :
    (¬ ((Error_ st j * GetLabelSign_ st j < -SMO_TOLERANCE ∧ st.alpha_.getD j 0 < st.c_)
          ∨ (Error_ st j * GetLabelSign_ st j > SMO_TOLERANCE ∧ st.alpha_.getD j 0 > 0)) →
        TryChangeCounted rnd p st j = some (false, st, p, 0)
          ∧ TryChange_ rnd p st j = some (false, st, p))
      ∧ (∃ b st1 p1, TryChange_ rnd p st j = some (b, st1, p1))
      ∧ (∀ st1 p1, TryChange_ rnd p st j = some (true, st1, p1) →
          ((Error_ st j * GetLabelSign_ st j < -SMO_TOLERANCE ∧ st.alpha_.getD j 0 < st.c_)
            ∨ (Error_ st j * GetLabelSign_ st j > SMO_TOLERANCE ∧ st.alpha_.getD j 0 > 0)))
      ∧ (∀ st1 p1, TryChange_ rnd p st j = some (false, st1, p1) → st1 = st) := by
  have hn : 0 < st.alpha_.length := by omega
  have hgate : KKTViolates st j = false →
      TryChangeCounted rnd p st j = some (false, st, p, 0)
        ∧ TryChange_ rnd p st j = some (false, st, p) := by
    intro hk
    constructor
    · simp [TryChangeCounted, hk]
    · simp [TryChange_, hk]
  obtain ⟨b, s1, p1, hret, _, hsame⟩ := TryChange_returns rnd p st j hn
  refine ⟨?_, ⟨b, s1, p1, hret⟩, ?_, ?_⟩
  · intro hnot
    apply hgate
    rw [← Bool.not_eq_true, KKTViolates_iff]
    exact hnot
  · intro st1 q1 htrue
    rw [← KKTViolates_iff]
    by_contra hk
    have hk2 : KKTViolates st j = false := by simpa using hk
    rw [(hgate hk2).2] at htrue
    simp at htrue
  · intro st1 q1 hfalse
    rw [hret] at hfalse
    simp only [Option.some.injEq, Prod.mk.injEq] at hfalse
    obtain ⟨hb, hs, _⟩ := hfalse
    rw [← hs]
    exact hsame hb

/-- Witness of C15 on `midState` at index `0`, which satisfies the optimality
conditions (`r_0 = 0`): `TryChange_(0)` returns `false` without calling
`TakeStep_` and leaves `midState` as it was. -/
theorem TryChange_gate_witness :
    0 < midState.alpha_.length
      ∧ ¬ ((Error_ midState 0 * GetLabelSign_ midState 0 < -SMO_TOLERANCE
            ∧ midState.alpha_.getD 0 0 < midState.c_)
          ∨ (Error_ midState 0 * GetLabelSign_ midState 0 > SMO_TOLERANCE
            ∧ midState.alpha_.getD 0 0 > 0))
      ∧ TryChangeCounted (fun _ => 0) 0 midState 0 = some (false, midState, 0, 0)
      ∧ TryChange_ (fun _ => 0) 0 midState 0 = some (false, midState, 0) := by
  have hlen : 0 < midState.alpha_.length := by simp [midState]
  have hnot : ¬ ((Error_ midState 0 * GetLabelSign_ midState 0 < -SMO_TOLERANCE
            ∧ midState.alpha_.getD 0 0 < midState.c_)
          ∨ (Error_ midState 0 * GetLabelSign_ midState 0 > SMO_TOLERANCE
            ∧ midState.alpha_.getD 0 0 > 0)) := by
    rw [← KKTViolates_iff, midState_kkt0]
    simp
  exact ⟨hlen, hnot, (TryChange_gate (fun _ => 0) 0 midState 0 hlen).1 hnot⟩

theorem TakeStep_true_eq (st : SMO) (i j : ℕ) (error_j : ℚ)
    (h : (TakeStep_ st i j error_j).1 = true) :
    i ≠ j ∧ TakeStep_ st i j error_j =
      (true,
        { st with
          error_ := TakeStep_error st i j error_j
          thresh_ := TakeStep_thresh_new st i j error_j
          alpha_ := (st.alpha_.set i (TakeStep_alpha_i st i j error_j)).set j
            (TakeStep_alpha_j st i j error_j) }) := by
  rw [TakeStep_unfold] at h ⊢
  by_cases h1 : i = j
  · rw [if_pos h1] at h; cases h
  · rw [if_neg h1] at h ⊢
    by_cases h2 : TakeStep_l st i j = TakeStep_u st i j
    · rw [if_pos h2] at h; cases h
    · rw [if_neg h2] at h ⊢
      by_cases h3 : |TakeStep_alpha_j st i j error_j - st.alpha_.getD j 0|
          < SMO_EPS * (TakeStep_alpha_j st i j error_j + st.alpha_.getD j 0 + SMO_EPS)
      · rw [if_pos h3] at h; cases h
      · rw [if_neg h3]
        exact ⟨h1, rfl⟩

/-! ## The choice of the threshold -/

/-- C17: for every call `TakeStep_(i, j, error_j)` on two indices of examples
that returns `true`, with `thresh_i` and `thresh_j` the two candidates of lines
339-340: the committed `thresh_` is `thresh_i` when the committed `alpha_[i]` is
strictly between `0` and `C`, otherwise `thresh_j` when the committed
`alpha_[j]` is strictly between `0` and `C`, otherwise
`(thresh_i + thresh_j) / 2`. -/
theorem TakeStep_threshold_choice (st : SMO) (i j : ℕ) (error_j : ℚ)
    (hi : i < st.alpha_.length) (hj : j < st.alpha_.length)
    (h : (TakeStep_ st i j error_j).1 = true) :
    (TakeStep_ st i j error_j).2.alpha_.getD i 0 = TakeStep_alpha_i st i j error_j
      ∧ (TakeStep_ st i j error_j).2.alpha_.getD j 0 = TakeStep_alpha_j st i j error_j
      ∧ (TakeStep_ st i j error_j).2.thresh_ =
        if 0 < (TakeStep_ st i j error_j).2.alpha_.getD i 0
            ∧ (TakeStep_ st i j error_j).2.alpha_.getD i 0 < st.c_ then
          TakeStep_thresh_i st i j error_j
        else if 0 < (TakeStep_ st i j error_j).2.alpha_.getD j 0
            ∧ (TakeStep_ st i j error_j).2.alpha_.getD j 0 < st.c_ then
          TakeStep_thresh_j st i j error_j
        else (TakeStep_thresh_i st i j error_j + TakeStep_thresh_j st i j error_j) / 2 := by
  have hbound : ∀ a : ℚ, (!IsBound_ st a) = true ↔ (0 < a ∧ a < st.c_) := by
    intro a
    simp [IsBound_, not_or]
  obtain ⟨h1, hres⟩ := TakeStep_true_eq st i j error_j h
  have hai : ((st.alpha_.set i (TakeStep_alpha_i st i j error_j)).set j
      (TakeStep_alpha_j st i j error_j)).getD i 0 = TakeStep_alpha_i st i j error_j := by
    rw [getD_set_eq, if_neg (fun hc => h1 hc.1.symm), getD_set_eq, if_pos ⟨rfl, hi⟩]
  have haj : ((st.alpha_.set i (TakeStep_alpha_i st i j error_j)).set j
      (TakeStep_alpha_j st i j error_j)).getD j 0 = TakeStep_alpha_j st i j error_j := by
    rw [getD_set_eq, if_pos ⟨rfl, by simpa using hj⟩]
  rw [hres]
  refine ⟨hai, haj, ?_⟩
  simp only [hai, haj, TakeStep_thresh_new, hbound]

/-- Witness of C17 on `midState` with the pair `(0, 1)` and `error_j = 1`, a step
that is taken. -/
theorem TakeStep_threshold_choice_witness :
    (0 < midState.alpha_.length ∧ 1 < midState.alpha_.length
        ∧ (TakeStep_ midState 0 1 1).1 = true)
      ∧ ((TakeStep_ midState 0 1 1).2.alpha_.getD 0 0 = TakeStep_alpha_i midState 0 1 1
        ∧ (TakeStep_ midState 0 1 1).2.alpha_.getD 1 0 = TakeStep_alpha_j midState 0 1 1
        ∧ (TakeStep_ midState 0 1 1).2.thresh_ =
          if 0 < (TakeStep_ midState 0 1 1).2.alpha_.getD 0 0
              ∧ (TakeStep_ midState 0 1 1).2.alpha_.getD 0 0 < midState.c_ then
            TakeStep_thresh_i midState 0 1 1
          else if 0 < (TakeStep_ midState 0 1 1).2.alpha_.getD 1 0
              ∧ (TakeStep_ midState 0 1 1).2.alpha_.getD 1 0 < midState.c_ then
            TakeStep_thresh_j midState 0 1 1
          else (TakeStep_thresh_i midState 0 1 1 + TakeStep_thresh_j midState 0 1 1) / 2) :=
  ⟨⟨by simp [midState], by simp [midState], midState_step.1⟩,
    TakeStep_threshold_choice midState 0 1 1 (by simp [midState]) (by simp [midState])
      midState_step.1⟩

/-! ## The branch of non-negative `eta` -/

theorem flatState_label0 : GetLabelSign_ flatState 0 = 1 := by
  norm_num [GetLabelSign_, flatState, Matrix.get]

theorem flatState_vec0 : GetVector_ flatState 0 = [1] := by
  simp [GetVector_, flatState, Matrix.MakeColumnSubvector]

theorem flatState_vec1 : GetVector_ flatState 1 = [1] := by
  simp [GetVector_, flatState, Matrix.MakeColumnSubvector]

theorem flatState_k00 : EvalKernel_ flatState 0 0 = 1 := by
  rw [EvalKernel_, flatState_vec0]; norm_num [flatState, LinearKernel]

theorem flatState_k01 : EvalKernel_ flatState 0 1 = 1 := by
  rw [EvalKernel_, flatState_vec0, flatState_vec1]; norm_num [flatState, LinearKernel]

theorem flatState_k11 : EvalKernel_ flatState 1 1 = 1 := by
  rw [EvalKernel_, flatState_vec1]; norm_num [flatState, LinearKernel]

theorem flatState_error0 : Error_ flatState 0 = 0 := by
  norm_num [Error_, IsBound_, flatState]

theorem flatState_r : TakeStep_r flatState 0 1 = 0 := by
  simp only [TakeStep_r, flatState_label0]
  norm_num [flatState]

theorem flatState_l : TakeStep_l flatState 0 1 = 0 := by
  rw [TakeStep_l, flatState_r]
  norm_num [ClampNonNegative]

theorem flatState_u : TakeStep_u flatState 0 1 = 1 := by
  rw [TakeStep_u, flatState_r]
  norm_num [ClampNonPositive, flatState]

theorem flatState_eta : TakeStep_eta flatState 0 1 = 0 := by
  norm_num [TakeStep_eta, flatState_k00, flatState_k01, flatState_k11]

theorem flatState_objlower : TakeStep_objlower flatState 0 1 = 1/2 := by
  simp only [TakeStep_objlower, flatState_label0, flatState_error0, flatState_l,
    flatState_k00, flatState_k01, flatState_k11]
  norm_num [flatState]

theorem flatState_objupper : TakeStep_objupper flatState 0 1 1 = -(1/2) := by
  simp only [TakeStep_objupper, flatState_label0, flatState_u,
    flatState_k00, flatState_k01, flatState_k11]
  norm_num [flatState]

theorem flatState_inBox : InBox flatState := by
  intro k hk
  have hk2 : k < 2 := by simpa [flatState] using hk
  interval_cases k <;> norm_num [flatState]

/-- C16, counterexample on `flatState` with the pair `(0, 1)` and
`error_j = 1`: the multipliers are in the box, `l = 0` differs from `u = 1`,
`eta = 0`, and `objupper = -1/2` is lower than `objlower = 1/2` by more than
`1e-4`; the value assigned to `alpha_j` before snapping is `l`, the bound of
the higher objective, not `u`. -/
theorem TakeStep_degenerate_picks_higher :
    InBox flatState
      ∧ TakeStep_l flatState 0 1 ≠ TakeStep_u flatState 0 1
      ∧ 0 ≤ TakeStep_eta flatState 0 1
      ∧ TakeStep_objupper flatState 0 1 1 < TakeStep_objlower flatState 0 1 - SMO_EPS
      ∧ TakeStep_alpha_j_raw flatState 0 1 1 = TakeStep_l flatState 0 1
      ∧ TakeStep_alpha_j_raw flatState 0 1 1 ≠ TakeStep_u flatState 0 1 := by
  have hraw : TakeStep_alpha_j_raw flatState 0 1 1 = 0 := by
    simp only [TakeStep_alpha_j_raw, flatState_eta, flatState_objlower, flatState_objupper,
      flatState_l]
    norm_num [SMO_EPS]
  rw [hraw, flatState_l, flatState_u, flatState_eta, flatState_objlower, flatState_objupper]
  refine ⟨flatState_inBox, ?_, ?_, ?_, rfl, ?_⟩ <;> norm_num [SMO_EPS]

theorem FixAlpha_no_progress (st : SMO) (a : ℚ) (h0 : 0 ≤ a) (hc : a ≤ st.c_) :
    |FixAlpha_ st a - a| < SMO_EPS * (FixAlpha_ st a + a + SMO_EPS) := by
  unfold FixAlpha_
  split_ifs with h1 h2
  · rw [zero_sub, abs_neg, abs_of_nonneg h0]
    simp only [SMO_ZERO, SMO_EPS] at h1 ⊢
    linarith
  · rw [abs_of_nonneg (by linarith)]
    simp only [SMO_ZERO, SMO_EPS] at h1 h2 ⊢
    linarith
  · rw [sub_self, abs_zero]
    simp only [SMO_EPS]
    linarith

/-- C16, amended: in `TakeStep_(i, j, error_j)` on a state whose multipliers
lie in `[0, C]`, when `eta >= 0` the value assigned to `alpha_j` before
snapping is `l` when `objlower > objupper + 1e-4` and `u` when
`objlower < objupper - 1e-4`, that is the bound whose computed objective is the
higher one by more than `1e-4`; when the two objectives are within `1e-4` of
each other it is the current `alpha_j`, and then `TakeStep_` returns `false`
and leaves the state as it was. -/
theorem TakeStep_degenerate_choice (st : SMO) (i j : ℕ) (error_j : ℚ)
    (hbox : InBox st) (hj : j < st.alpha_.length) (heta : 0 ≤ TakeStep_eta st i j) :
    (TakeStep_objlower st i j > TakeStep_objupper st i j error_j + SMO_EPS →
        TakeStep_alpha_j_raw st i j error_j = TakeStep_l st i j)
      ∧ (TakeStep_objlower st i j < TakeStep_objupper st i j error_j - SMO_EPS →
        TakeStep_alpha_j_raw st i j error_j = TakeStep_u st i j)
      ∧ (|TakeStep_objlower st i j - TakeStep_objupper st i j error_j| ≤ SMO_EPS →
        TakeStep_alpha_j_raw st i j error_j = st.alpha_.getD j 0
          ∧ TakeStep_ st i j error_j = (false, st)) := by
  have hneg : ¬ TakeStep_eta st i j < 0 := not_lt.mpr heta
  have heps : (0 : ℚ) < SMO_EPS := by norm_num [SMO_EPS]
  refine ⟨?_, ?_, ?_⟩
  · intro h
    simp only [TakeStep_alpha_j_raw, if_neg hneg, if_pos h]
  · intro h
    have h1 : ¬ TakeStep_objlower st i j > TakeStep_objupper st i j error_j + SMO_EPS := by
      intro h2
      linarith
    simp only [TakeStep_alpha_j_raw, if_neg hneg, if_neg h1, if_pos h]
  · intro h
    obtain ⟨hlo, hhi⟩ := abs_le.mp h
    have h1 : ¬ TakeStep_objlower st i j > TakeStep_objupper st i j error_j + SMO_EPS := by
      intro h2
      linarith
    have h2 : ¬ TakeStep_objlower st i j < TakeStep_objupper st i j error_j - SMO_EPS := by
      intro h3
      linarith
    have hraw : TakeStep_alpha_j_raw st i j error_j = st.alpha_.getD j 0 := by
      simp only [TakeStep_alpha_j_raw, if_neg hneg, if_neg h1, if_neg h2]
    refine ⟨hraw, ?_⟩
    have hprog := FixAlpha_no_progress st (st.alpha_.getD j 0) (hbox j hj).1 (hbox j hj).2
    rw [TakeStep_unfold]
    split_ifs with h3 h4 h5
    · rfl
    · rfl
    · rfl
    · exact absurd (by rw [TakeStep_alpha_j, hraw]; exact hprog) h5

/-- Witness of C16 as amended, on `flatState` with the pair `(0, 1)` and
`error_j = 1`: `eta = 0`, `objlower = 1/2` exceeds `objupper + 1e-4 = -1/2 + 1e-4`,
and the value assigned is `l`. -/
theorem TakeStep_degenerate_choice_witness :
    (InBox flatState ∧ 1 < flatState.alpha_.length ∧ 0 ≤ TakeStep_eta flatState 0 1
        ∧ TakeStep_objlower flatState 0 1 > TakeStep_objupper flatState 0 1 1 + SMO_EPS)
      ∧ TakeStep_alpha_j_raw flatState 0 1 1 = TakeStep_l flatState 0 1 := by
  have hlen : 1 < flatState.alpha_.length := by simp [flatState]
  have heta : 0 ≤ TakeStep_eta flatState 0 1 := by rw [flatState_eta]
  have hobj : TakeStep_objlower flatState 0 1
      > TakeStep_objupper flatState 0 1 1 + SMO_EPS := by
    rw [flatState_objlower, flatState_objupper]
    norm_num [SMO_EPS]
  exact ⟨⟨flatState_inBox, hlen, heta, hobj⟩,
    (TakeStep_degenerate_choice flatState 0 1 1 flatState_inBox hlen heta).1 hobj⟩

/-! ## The greedy choice of the partner -/

theorem greedyLow_fold (st : SMO) (error_j : ℚ) (t : ℕ) :
    ∀ acc : Option ℕ × ℚ,
      acc = (List.range t).foldl
        (fun (acc : Option ℕ × ℚ) k =>
          if !IsBound_ st (st.alpha_.getD k 0) && decide (st.error_.getD k 0 < acc.2) then
            (some k, st.error_.getD k 0)
          else acc)
        (none, error_j) →
      (acc.1 = none → acc.2 = error_j
          ∧ ∀ m, m < t → IsBound_ st (st.alpha_.getD m 0) = false →
              error_j ≤ st.error_.getD m 0)
        ∧ (∀ k, acc.1 = some k →
            k < t ∧ IsBound_ st (st.alpha_.getD k 0) = false
              ∧ acc.2 = st.error_.getD k 0 ∧ st.error_.getD k 0 < error_j
              ∧ (∀ m, m < t → IsBound_ st (st.alpha_.getD m 0) = false →
                  st.error_.getD k 0 ≤ st.error_.getD m 0)
              ∧ (∀ m, m < k → IsBound_ st (st.alpha_.getD m 0) = false →
                  st.error_.getD k 0 < st.error_.getD m 0)) := by
  induction t with
  | zero =>
    intro acc hacc
    subst hacc
    refine ⟨fun _ => ⟨rfl, fun m hm => absurd hm (Nat.not_lt_zero m)⟩, fun k hk => ?_⟩
    simp at hk
  | succ t ih =>
    intro acc hacc
    rw [List.range_succ, List.foldl_append, List.foldl_cons, List.foldl_nil] at hacc
    obtain ⟨ihn, ihs⟩ := ih _ rfl
    generalize (List.range t).foldl
        (fun (acc : Option ℕ × ℚ) k =>
          if !IsBound_ st (st.alpha_.getD k 0) && decide (st.error_.getD k 0 < acc.2) then
            (some k, st.error_.getD k 0)
          else acc)
        (none, error_j) = prev at hacc ihn ihs
    by_cases hcond : (!IsBound_ st (st.alpha_.getD t 0)
        && decide (st.error_.getD t 0 < prev.2)) = true
    · rw [if_pos hcond] at hacc
      subst hacc
      simp only [Bool.and_eq_true, Bool.not_eq_true', decide_eq_true_eq] at hcond
      obtain ⟨hnb, hlt⟩ := hcond
      refine ⟨fun h => by simp at h, fun k hk => ?_⟩
      simp only [Option.some.injEq] at hk
      subst hk
      cases hp : prev.1 with
      | none =>
        obtain ⟨he, hall⟩ := ihn hp
        rw [he] at hlt
        refine ⟨Nat.lt_succ_self _, hnb, rfl, hlt, fun m hm hb => ?_, fun m hm hb => ?_⟩
        · rcases Nat.lt_succ_iff_lt_or_eq.mp hm with h | h
          · exact le_of_lt (lt_of_lt_of_le hlt (hall m h hb))
          · rw [h]
        · exact lt_of_lt_of_le hlt (hall m hm hb)
      | some k0 =>
        obtain ⟨hk0, _, he, hlte, hall, _⟩ := ihs k0 hp
        rw [he] at hlt
        refine ⟨Nat.lt_succ_self _, hnb, rfl, lt_trans hlt hlte, fun m hm hb => ?_,
          fun m hm hb => ?_⟩
        · rcases Nat.lt_succ_iff_lt_or_eq.mp hm with h | h
          · exact le_of_lt (lt_of_lt_of_le hlt (hall m h hb))
          · rw [h]
        · exact lt_of_lt_of_le hlt (hall m hm hb)
    · rw [if_neg hcond] at hacc
      subst hacc
      simp only [Bool.and_eq_true, Bool.not_eq_true', decide_eq_true_eq, not_and, not_lt]
        at hcond
      refine ⟨fun h => ?_, fun k hk => ?_⟩
      · obtain ⟨he, hall⟩ := ihn h
        refine ⟨he, fun m hm hb => ?_⟩
        rcases Nat.lt_succ_iff_lt_or_eq.mp hm with h1 | h1
        · exact hall m h1 hb
        · rw [h1] at hb ⊢
          rw [← he]
          exact hcond hb
      · obtain ⟨hk0, hnb, he, hlte, hall, hfirst⟩ := ihs k hk
        refine ⟨Nat.lt_succ_of_lt hk0, hnb, he, hlte, fun m hm hb => ?_, hfirst⟩
        rcases Nat.lt_succ_iff_lt_or_eq.mp hm with h1 | h1
        · exact hall m h1 hb
        · rw [h1] at hb ⊢
          rw [← he]
          exact hcond hb

theorem greedyHigh_fold (st : SMO) (error_j : ℚ) (t : ℕ) :
    ∀ acc : Option ℕ × ℚ,
      acc = (List.range t).foldl
        (fun (acc : Option ℕ × ℚ) k =>
          if !IsBound_ st (st.alpha_.getD k 0) && decide (st.error_.getD k 0 > acc.2) then
            (some k, st.error_.getD k 0)
          else acc)
        (none, error_j) →
      (acc.1 = none → acc.2 = error_j
          ∧ ∀ m, m < t → IsBound_ st (st.alpha_.getD m 0) = false →
              st.error_.getD m 0 ≤ error_j)
        ∧ (∀ k, acc.1 = some k →
            k < t ∧ IsBound_ st (st.alpha_.getD k 0) = false
              ∧ acc.2 = st.error_.getD k 0 ∧ error_j < st.error_.getD k 0
              ∧ (∀ m, m < t → IsBound_ st (st.alpha_.getD m 0) = false →
                  st.error_.getD m 0 ≤ st.error_.getD k 0)
              ∧ (∀ m, m < k → IsBound_ st (st.alpha_.getD m 0) = false →
                  st.error_.getD m 0 < st.error_.getD k 0)) := by
  induction t with
  | zero =>
    intro acc hacc
    subst hacc
    refine ⟨fun _ => ⟨rfl, fun m hm => absurd hm (Nat.not_lt_zero m)⟩, fun k hk => ?_⟩
    simp at hk
  | succ t ih =>
    intro acc hacc
    rw [List.range_succ, List.foldl_append, List.foldl_cons, List.foldl_nil] at hacc
    obtain ⟨ihn, ihs⟩ := ih _ rfl
    generalize (List.range t).foldl
        (fun (acc : Option ℕ × ℚ) k =>
          if !IsBound_ st (st.alpha_.getD k 0) && decide (st.error_.getD k 0 > acc.2) then
            (some k, st.error_.getD k 0)
          else acc)
        (none, error_j) = prev at hacc ihn ihs
    by_cases hcond : (!IsBound_ st (st.alpha_.getD t 0)
        && decide (st.error_.getD t 0 > prev.2)) = true
    · rw [if_pos hcond] at hacc
      subst hacc
      simp only [Bool.and_eq_true, Bool.not_eq_true', decide_eq_true_eq, gt_iff_lt] at hcond
      obtain ⟨hnb, hlt⟩ := hcond
      refine ⟨fun h => by simp at h, fun k hk => ?_⟩
      simp only [Option.some.injEq] at hk
      subst hk
      cases hp : prev.1 with
      | none =>
        obtain ⟨he, hall⟩ := ihn hp
        rw [he] at hlt
        refine ⟨Nat.lt_succ_self _, hnb, rfl, hlt, fun m hm hb => ?_, fun m hm hb => ?_⟩
        · rcases Nat.lt_succ_iff_lt_or_eq.mp hm with h | h
          · exact le_of_lt (lt_of_le_of_lt (hall m h hb) hlt)
          · rw [h]
        · exact lt_of_le_of_lt (hall m hm hb) hlt
      | some k0 =>
        obtain ⟨hk0, _, he, hlte, hall, _⟩ := ihs k0 hp
        rw [he] at hlt
        refine ⟨Nat.lt_succ_self _, hnb, rfl, lt_trans hlte hlt, fun m hm hb => ?_,
          fun m hm hb => ?_⟩
        · rcases Nat.lt_succ_iff_lt_or_eq.mp hm with h | h
          · exact le_of_lt (lt_of_le_of_lt (hall m h hb) hlt)
          · rw [h]
        · exact lt_of_le_of_lt (hall m hm hb) hlt
    · rw [if_neg hcond] at hacc
      subst hacc
      simp only [Bool.and_eq_true, Bool.not_eq_true', decide_eq_true_eq, gt_iff_lt, not_and,
        not_lt] at hcond
      refine ⟨fun h => ?_, fun k hk => ?_⟩
      · obtain ⟨he, hall⟩ := ihn h
        refine ⟨he, fun m hm hb => ?_⟩
        rcases Nat.lt_succ_iff_lt_or_eq.mp hm with h1 | h1
        · exact hall m h1 hb
        · rw [h1] at hb ⊢
          rw [← he]
          exact hcond hb
      · obtain ⟨hk0, hnb, he, hlte, hall, hfirst⟩ := ihs k hk
        refine ⟨Nat.lt_succ_of_lt hk0, hnb, he, hlte, fun m hm hb => ?_, hfirst⟩
        rcases Nat.lt_succ_iff_lt_or_eq.mp hm with h1 | h1
        · exact hall m h1 hb
        · rw [h1] at hb ⊢
          rw [← he]
          exact hcond hb

theorem greedyLow_spec (st : SMO) (error_j : ℚ) :
    (∀ k, IsGreedyLow st error_j k → greedyLow st error_j = some k)
      ∧ ((∀ m, m < st.alpha_.length → IsBound_ st (st.alpha_.getD m 0) = false →
            error_j ≤ st.error_.getD m 0) → greedyLow st error_j = none) := by
  obtain ⟨hn, hs⟩ := greedyLow_fold st error_j st.alpha_.length _ rfl
  constructor
  · rintro k ⟨hk, hnb, hlt, hmin, hfirst⟩
    unfold greedyLow
    cases hres : ((List.range st.alpha_.length).foldl
        (fun (acc : Option ℕ × ℚ) k =>
          if !IsBound_ st (st.alpha_.getD k 0) && decide (st.error_.getD k 0 < acc.2) then
            (some k, st.error_.getD k 0)
          else acc)
        (none, error_j)).1 with
    | none =>
      have := (hn hres).2 k hk hnb
      linarith
    | some k1 =>
      obtain ⟨hk1, hnb1, _, _, hmin1, hfirst1⟩ := hs k1 hres
      rcases Nat.lt_trichotomy k k1 with h | h | h
      · have h1 := hfirst1 k h hnb
        have h2 := hmin k1 hk1 hnb1
        linarith
      · rw [h]
      · have h1 := hfirst k1 h hnb1
        have h2 := hmin1 k hk hnb
        linarith
  · intro hall
    unfold greedyLow
    cases hres : ((List.range st.alpha_.length).foldl
        (fun (acc : Option ℕ × ℚ) k =>
          if !IsBound_ st (st.alpha_.getD k 0) && decide (st.error_.getD k 0 < acc.2) then
            (some k, st.error_.getD k 0)
          else acc)
        (none, error_j)).1 with
    | none => rfl
    | some k1 =>
      obtain ⟨hk1, hnb1, _, hlt1, _, _⟩ := hs k1 hres
      have := hall k1 hk1 hnb1
      linarith

theorem greedyHigh_spec (st : SMO) (error_j : ℚ) :
    (∀ k, IsGreedyHigh st error_j k → greedyHigh st error_j = some k)
      ∧ ((∀ m, m < st.alpha_.length → IsBound_ st (st.alpha_.getD m 0) = false →
            st.error_.getD m 0 ≤ error_j) → greedyHigh st error_j = none) := by
  obtain ⟨hn, hs⟩ := greedyHigh_fold st error_j st.alpha_.length _ rfl
  constructor
  · rintro k ⟨hk, hnb, hlt, hmax, hfirst⟩
    unfold greedyHigh
    cases hres : ((List.range st.alpha_.length).foldl
        (fun (acc : Option ℕ × ℚ) k =>
          if !IsBound_ st (st.alpha_.getD k 0) && decide (st.error_.getD k 0 > acc.2) then
            (some k, st.error_.getD k 0)
          else acc)
        (none, error_j)).1 with
    | none =>
      have := (hn hres).2 k hk hnb
      linarith
    | some k1 =>
      obtain ⟨hk1, hnb1, _, _, hmax1, hfirst1⟩ := hs k1 hres
      rcases Nat.lt_trichotomy k k1 with h | h | h
      · have h1 := hfirst1 k h hnb
        have h2 := hmax k1 hk1 hnb1
        linarith
      · rw [h]
      · have h1 := hfirst k1 h hnb1
        have h2 := hmax1 k hk hnb
        linarith
  · intro hall
    unfold greedyHigh
    cases hres : ((List.range st.alpha_.length).foldl
        (fun (acc : Option ℕ × ℚ) k =>
          if !IsBound_ st (st.alpha_.getD k 0) && decide (st.error_.getD k 0 > acc.2) then
            (some k, st.error_.getD k 0)
          else acc)
        (none, error_j)).1 with
    | none => rfl
    | some k1 =>
      obtain ⟨hk1, hnb1, _, hlt1, _, _⟩ := hs k1 hres
      have := hall k1 hk1 hnb1
      linarith

/-- C18: for every state and index `j`, with `error_j = Error_(j)`: when `j`
violates the optimality predicate, `error_j` is not zero and a successful greedy
attempt ends `TryChange_(j)` before any random value is drawn. When
`error_j > 0` the greedy attempt, the first call of `TakeStep_`, is made with
the lowest index `k` among the non-bound examples whose cached `error_[k]` is
the minimum over the non-bound examples, provided that minimum is strictly
below `error_j`; when `error_j < 0`, with the lowest index whose cached error is
the maximum, provided it is strictly above `error_j`; and when no non-bound
example qualifies no greedy call is made and control passes to the scans with
the state unchanged. -/
theorem TryChange_greedy_partner (rnd : ℕ → ℕ) (p : ℕ) (st : SMO) (j : ℕ) :
    (KKTViolates st j = true → Error_ st j ≠ 0)
      ∧ (KKTViolates st j = true → (greedyAttempt st j (Error_ st j)).1 = true →
          TryChange_ rnd p st j = some (true, (greedyAttempt st j (Error_ st j)).2, p))
      ∧ (0 < Error_ st j →
          (∀ k, IsGreedyLow st (Error_ st j) k →
              greedyCalls st (Error_ st j) = 1
                ∧ greedyAttempt st j (Error_ st j) = TakeStep_ st k j (Error_ st j))
            ∧ ((∀ m, m < st.alpha_.length → IsBound_ st (st.alpha_.getD m 0) = false →
                  Error_ st j ≤ st.error_.getD m 0) →
                greedyCalls st (Error_ st j) = 0
                  ∧ greedyAttempt st j (Error_ st j) = (false, st)))
      ∧ (Error_ st j < 0 →
          (∀ k, IsGreedyHigh st (Error_ st j) k →
              greedyCalls st (Error_ st j) = 1
                ∧ greedyAttempt st j (Error_ st j) = TakeStep_ st k j (Error_ st j))
            ∧ ((∀ m, m < st.alpha_.length → IsBound_ st (st.alpha_.getD m 0) = false →
                  st.error_.getD m 0 ≤ Error_ st j) →
                greedyCalls st (Error_ st j) = 0
                  ∧ greedyAttempt st j (Error_ st j) = (false, st))) := by
  have htol : (0 : ℚ) < SMO_TOLERANCE := by norm_num [SMO_TOLERANCE]
  refine ⟨?_, ?_, ?_, ?_⟩
  · intro hk h0
    rw [KKTViolates_iff, h0, zero_mul] at hk
    rcases hk with ⟨h, _⟩ | ⟨h, _⟩ <;> linarith
  · intro hk hg
    simp [TryChange_, hk, hg]
  · intro hpos
    constructor
    · intro k hk
      have hsome := (greedyLow_spec st (Error_ st j)).1 k hk
      simp [greedyCalls, greedyAttempt, hpos, hsome]
    · intro hall
      have hnone := (greedyLow_spec st (Error_ st j)).2 hall
      simp [greedyCalls, greedyAttempt, hpos, hnone]
  · intro hneg
    have hnpos : ¬ Error_ st j > 0 := by
      intro h
      linarith
    constructor
    · intro k hk
      have hsome := (greedyHigh_spec st (Error_ st j)).1 k hk
      simp [greedyCalls, greedyAttempt, hnpos, hneg, hsome]
    · intro hall
      have hnone := (greedyHigh_spec st (Error_ st j)).2 hall
      simp [greedyCalls, greedyAttempt, hnpos, hneg, hnone]

/-- Witness of C18 on `midState` at `j = 1`, where `Error_(1) = 1 > 0`: index
`0` is non-bound with the least cached error `0 < 1`, and the greedy attempt is
`TakeStep_(0, 1, 1)`. -/
theorem TryChange_greedy_partner_witness :
    (0 < Error_ midState 1 ∧ IsGreedyLow midState (Error_ midState 1) 0)
      ∧ greedyCalls midState (Error_ midState 1) = 1
      ∧ greedyAttempt midState 1 (Error_ midState 1)
          = TakeStep_ midState 0 1 (Error_ midState 1) := by
  have hpos : 0 < Error_ midState 1 := by rw [midState_error1]; norm_num
  have hk : IsGreedyLow midState (Error_ midState 1) 0 := by
    rw [midState_error1]
    refine ⟨by simp [midState], by norm_num [IsBound_, midState], by norm_num [midState],
      fun m hm _ => ?_, fun m hm _ => absurd hm (Nat.not_lt_zero m)⟩
    have hm2 : m < 2 := by simpa [midState] using hm
    interval_cases m <;> norm_num [midState]
  exact ⟨⟨hpos, hk⟩,
    ((TryChange_greedy_partner (fun _ => 0) 0 midState 1).2.2.1 hpos).1 0 hk⟩

/-! ## Training a fresh solver -/

theorem foldl_fixed {α β : Type} (l : List β) (f : α → β → α) (a : α)
    (hf : ∀ x k, f x k = x) : l.foldl f a = a := by
  induction l with
  | nil => rfl
  | cons k l ih => rw [List.foldl_cons, hf]; exact ih

theorem Init_error_getD (kernel_ : Kernel) (ds : Dataset) (c : ℚ) (k : ℕ) :
    (Init kernel_ ds c).error_.getD k 0 = 0 := by
  simp only [Init]
  by_cases hk : k < (List.replicate ds.matrix.n_cols (0 : ℚ)).length
  · rw [List.getD_eq_getElem _ _ hk]; simp
  · rw [List.getD_eq_default _ _ (not_lt.mp hk)]

theorem Init_GetSVM (kernel_ : Kernel) (ds : Dataset) (c : ℚ) :
    GetSVM (Init kernel_ ds c) = { support_vectors := [], support_alpha := [] } := by
  simp only [GetSVM]
  rw [foldl_fixed _ _ _ (fun x k => by
      simp only [Init_alpha_getD, ne_eq, not_true_eq_false, if_false]),
    foldl_fixed _ _ _ (fun x k => by
      simp only [Init_alpha_getD, ne_eq, not_true_eq_false, if_false])]
  rfl

/-- C19: for every kernel, every dataset and every `C >= 0`, in the state that
`Init` produces every call of `TakeStep_` returns `false` and leaves the state
as it is, the computed bounds being `l == u == 0` for every pair; hence for
every sequence of `rand()` values `Init` followed by `Train` runs one sweep
with zero successful updates and returns the state of `Init`, in which every
`alpha_[k]`, every `error_[k]` and `thresh_` are zero, and `GetSVM` then
yields a model without support vectors. -/
theorem Init_train_changes_nothing (kernel_ : Kernel) (ds : Dataset) (c : ℚ) (hc : 0 ≤ c) :
    (∀ i j error_j,
        TakeStep_ (Init kernel_ ds c) i j error_j = (false, Init kernel_ ds c))
      ∧ (∀ i j, TakeStep_l (Init kernel_ ds c) i j = 0
          ∧ TakeStep_u (Init kernel_ ds c) i j = 0)
      ∧ (∀ (rnd : ℕ → ℕ) (fuel p : ℕ), ∃ p1,
          Train rnd (fuel + 1) p (Init kernel_ ds c)
            = some (Init kernel_ ds c, p1, [(true, 0)]))
      ∧ (∀ k, (Init kernel_ ds c).alpha_.getD k 0 = 0)
      ∧ (∀ k, (Init kernel_ ds c).error_.getD k 0 = 0)
      ∧ (Init kernel_ ds c).thresh_ = 0
      ∧ GetSVM (Init kernel_ ds c) = { support_vectors := [], support_alpha := [] } := by
  have hs := Init_stuck kernel_ ds c hc
  refine ⟨hs, fun i j => ?_, fun rnd fuel p => Train_stuck rnd fuel p _ hs,
    Init_alpha_getD kernel_ ds c, Init_error_getD kernel_ ds c, rfl, Init_GetSVM kernel_ ds c⟩
  have hc2 : (0 : ℚ) ≤ (Init kernel_ ds c).c_ := hc
  simp only [TakeStep_l, TakeStep_u, ClampNonNegative, ClampNonPositive,
    TakeStep_r_zero _ (Init_alpha_getD kernel_ ds c)]
  rw [max_eq_left (by linarith), min_eq_right (by linarith)]
  exact ⟨rfl, by ring⟩

/-- Witness of C19 on `pairData` with the linear kernel and `C = 1`. -/
theorem Init_train_changes_nothing_witness :
    (0 : ℚ) ≤ 1
      ∧ (∀ i j error_j, TakeStep_ (Init LinearKernel pairData 1) i j error_j
          = (false, Init LinearKernel pairData 1))
      ∧ (∀ (rnd : ℕ → ℕ) (fuel p : ℕ), ∃ p1,
          Train rnd (fuel + 1) p (Init LinearKernel pairData 1)
            = some (Init LinearKernel pairData 1, p1, [(true, 0)]))
      ∧ GetSVM (Init LinearKernel pairData 1)
          = { support_vectors := [], support_alpha := [] } :=
  ⟨by norm_num,
    (Init_train_changes_nothing LinearKernel pairData 1 (by norm_num)).1,
    (Init_train_changes_nothing LinearKernel pairData 1 (by norm_num)).2.2.1,
    (Init_train_changes_nothing LinearKernel pairData 1 (by norm_num)).2.2.2.2.2.2⟩

/-! ## Termination of `Train` -/

/-- C20: for every state, every kernel and every sequence of `rand()` values,
`Train` returns after exactly one call of `TrainIteration_`, made with
`examine_all = true`, whatever number of updates that sweep reports; and every
call of `TryChange_` on a state of `N >= 1` examples returns after at most
`1 + 2 * N` calls of `TakeStep_`. -/
theorem Train_single_sweep (rnd : ℕ → ℕ) (fuel p : ℕ) (st : SMO) :
    (∃ st1 p1 n1, TrainIteration_ rnd p st true = some (st1, p1, n1)
        ∧ Train rnd (fuel + 1) p st = some (st1, p1, [(true, n1)]))
      ∧ (∀ (q : ℕ) (s : SMO) (j : ℕ), 0 < s.alpha_.length →
          ∃ b s1 q1 n, TryChangeCounted rnd q s j = some (b, s1, q1, n)
            ∧ TryChange_ rnd q s j = some (b, s1, q1)
            ∧ n ≤ 1 + 2 * s.alpha_.length) := by
  constructor
  · obtain ⟨s1, p1, n1, h⟩ := TrainIteration_returns rnd p st true
    exact ⟨s1, p1, n1, h, by simp [Train, TrainLoop, h]⟩
  · intro q s j hn
    obtain ⟨b, s1, q1, n, hc, ht⟩ := TryChangeCounted_returns rnd q s j hn
    exact ⟨b, s1, q1, n, hc, ht, TryChangeCounted_bound rnd q s j b s1 q1 n hc⟩

/-- Witness of C20 on `midState`: with two examples, `TryChange_(1)` returns
after at most `1 + 2 * 2` calls of `TakeStep_`, and `Train` returns after one
full sweep. -/
theorem Train_single_sweep_witness :
    0 < midState.alpha_.length
      ∧ (∃ st1 p1 n1, TrainIteration_ (fun _ => 0) 0 midState true = some (st1, p1, n1)
          ∧ Train (fun _ => 0) 1 0 midState = some (st1, p1, [(true, n1)]))
      ∧ (∃ b s1 q1 n, TryChangeCounted (fun _ => 0) 0 midState 1 = some (b, s1, q1, n)
          ∧ TryChange_ (fun _ => 0) 0 midState 1 = some (b, s1, q1)
          ∧ n ≤ 1 + 2 * midState.alpha_.length) :=
  ⟨by simp [midState],
    (Train_single_sweep (fun _ => 0) 0 0 midState).1,
    (Train_single_sweep (fun _ => 0) 0 0 midState).2 0 midState 1 (by simp [midState])⟩

end Smo
